import Mathlib

/-!
Verification of the cr-ai review pipeline: a shallow embedding of the
renderer (`formatAndDisplayReview` in `src/commands/changes.js`), the
review client wrapper (`reviewCode` in `src/utils/reviewer.js`) and the
orchestrator (`changesCommand`), over `List Char` texts.  JavaScript
regex passes are modelled as explicit character scanners with the same
left-to-right, leftmost-match semantics; `.` excludes line terminators,
`\s` is the JS whitespace class, and `^` in multiline mode is tracked by
a beginning-of-line flag.  Recursive scanners take a fuel argument
(`length + 1` at the top level) so that every definition reduces in the
kernel.
-/

set_option maxRecDepth 10000

namespace CRAI

/-- Texts are lists of characters (JS strings, modelled at code-point level). -/
abbrev L := List Char

/-- JS line terminators: `\n`, `\r`, U+2028, U+2029.  These are the characters
`.` does not match and the positions after which multiline `^` matches. -/
def isLineTerm (c : Char) : Bool :=
  c = '\n' || c = '\r' || c.toNat = 0x2028 || c.toNat = 0x2029

/-- The JS regex `\s` class. -/
def isJsWs (c : Char) : Bool :=
  c = ' ' || c = '\t' || c = '\n' || c = '\r' || c.toNat = 11 || c.toNat = 12 ||
  c.toNat = 0xa0 || c.toNat = 0x1680 || (0x2000 ≤ c.toNat && c.toNat ≤ 0x200a) ||
  c.toNat = 0x2028 || c.toNat = 0x2029 || c.toNat = 0x202f || c.toNat = 0x205f ||
  c.toNat = 0x3000 || c.toNat = 0xfeff

def isAsciiLetter (c : Char) : Bool :=
  ('A' ≤ c && c ≤ 'Z') || ('a' ≤ c && c ≤ 'z')

def isUpperAZ (c : Char) : Bool := 'A' ≤ c && c ≤ 'Z'

def isDigitChar (c : Char) : Bool := '0' ≤ c && c ≤ '9'

/-- The JS regex `\w` class (`[A-Za-z0-9_]`). -/
def isWordChar (c : Char) : Bool := isAsciiLetter c || isDigitChar c || c = '_'

def toLowerChar (c : Char) : Char :=
  if 'A' ≤ c && c ≤ 'Z' then Char.ofNat (c.toNat + 32) else c

def toLowerL (l : L) : L := l.map toLowerChar

/-- Greedy span: the maximal prefix satisfying `p`, and the rest. -/
def spanP (p : Char → Bool) : L → L × L
  | [] => ([], [])
  | c :: rest =>
    if p c then (c :: (spanP p rest).1, (spanP p rest).2)
    else ([], c :: rest)

/-- First occurrence of the single-character delimiter `c` (lazy `(.*?)` with a
closing `\1`): the content before it (which may not contain a line
terminator) and the text after it. -/
def findClose1 (c : Char) : L → Option (L × L)
  | [] => none
  | a :: rest =>
    if a = c then some ([], rest)
    else if isLineTerm a then none
    else (findClose1 c rest).map fun p => (a :: p.1, p.2)

/-- First occurrence of the doubled delimiter `c c` (closing `\1` for `**` or
`__`): content before it (no line terminator) and the text after it. -/
def findClose2 (c : Char) : L → Option (L × L)
  | [] => none
  | a :: rest =>
    if a = c && rest.head? = some c then some ([], rest.tail)
    else if isLineTerm a then none
    else (findClose2 c rest).map fun p => (a :: p.1, p.2)

/-- First occurrence of the character `c` anywhere (for `[^`]+` spans and for
lazy `[\s\S]*?`): content before it and the text after it. -/
def splitAtChar (c : Char) : L → Option (L × L)
  | [] => none
  | a :: rest =>
    if a = c then some ([], rest)
    else (splitAtChar c rest).map fun p => (a :: p.1, p.2)

/-- First occurrence of three consecutive backticks. -/
def splitAtTriple : L → Option (L × L)
  | [] => none
  | a :: rest =>
    if a = '`' && rest.take 2 = ['`', '`'] then some ([], rest.drop 2)
    else (splitAtTriple rest).map fun p => (a :: p.1, p.2)

/-- JS `s.split('\n')`: always nonempty, one entry per `\n`-separated segment. -/
def splitLines : L → List L
  | [] => [[]]
  | c :: rest =>
    if c = '\n' then [] :: splitLines rest
    else
      match splitLines rest with
      | h :: t => (c :: h) :: t
      | [] => [[c]]

/-- `s.split('\n').length`, the line count JS reports. -/
def countLines (l : L) : Nat := (splitLines l).length

/-- Decimal digits of a natural number (JS number-to-string interpolation). -/
def natToCharsF : Nat → Nat → L
  | 0, _ => []
  | fuel + 1, n =>
    if n < 10 then [Char.ofNat (48 + n)]
    else natToCharsF fuel (n / 10) ++ [Char.ofNat (48 + n % 10)]

def natToChars (n : Nat) : L := natToCharsF (n + 1) n

/-- Boolean substring test (JS `String.prototype.includes`). -/
def containsSub : L → L → Bool
  | hay, needle =>
    match hay with
    | [] => needle.isEmpty
    | _ :: rest => needle.isPrefixOf hay || containsSub rest needle

def endsWithBreak (l : L) : Bool :=
  match l.getLast? with
  | some c => isLineTerm c
  | none => false

/-! ### ANSI styling (chalk) -/

def escChar : Char := '\x1b'

def escSeq (code : L) : L := escChar :: '[' :: code ++ ['m']

/-- `chalk.gray` (the `styles.dim` style). -/
def dimWrap (s : L) : L := escSeq ['9', '0'] ++ s ++ escSeq ['3', '9']

/-- `chalk.magenta` (the `styles.code` style). -/
def codeWrap (s : L) : L := escSeq ['3', '5'] ++ s ++ escSeq ['3', '9']

/-- `chalk.green.bold` (`styles.reviewSummary.bold`). -/
def greenBoldWrap (s : L) : L :=
  escSeq ['3', '2'] ++ escSeq ['1'] ++ s ++ escSeq ['2', '2'] ++ escSeq ['3', '9']

/-- `chalk.red.bold` (`styles.reviewIssue.bold`). -/
def redBoldWrap (s : L) : L :=
  escSeq ['3', '1'] ++ escSeq ['1'] ++ s ++ escSeq ['2', '2'] ++ escSeq ['3', '9']

/-- `chalk.cyan.bold` (`styles.sectionTitle.bold`). -/
def cyanBoldWrap (s : L) : L :=
  escSeq ['3', '6'] ++ escSeq ['1'] ++ s ++ escSeq ['2', '2'] ++ escSeq ['3', '9']

/-- Remove ANSI SGR escape sequences: on `ESC`, skip through the next `m`. -/
def stripAnsiF : Bool → L → L
  | _, [] => []
  | true, c :: rest => if c = 'm' then stripAnsiF false rest else stripAnsiF true rest
  | false, c :: rest =>
    if c = escChar then stripAnsiF true rest else c :: stripAnsiF false rest

def stripAnsi (l : L) : L := stripAnsiF false l

/-! ### The renderer's cleanup passes (`formatAndDisplayReview`) -/

/-- `cleanedReview.replace(/(\*\*|__)(.*?)\1/g, '$2')` — remove bold. -/
def removeBoldF : Nat → L → L
  | 0, l => l
  | fuel + 1, l =>
    match l with
    | [] => []
    | [c] => [c]
    | c1 :: c2 :: rest2 =>
      if (c1 = '*' && c2 = '*') || (c1 = '_' && c2 = '_') then
        match findClose2 c1 rest2 with
        | some p => p.1 ++ removeBoldF fuel p.2
        | none => c1 :: removeBoldF fuel (c2 :: rest2)
      else c1 :: removeBoldF fuel (c2 :: rest2)

def removeBold (l : L) : L := removeBoldF (l.length + 1) l

/-- `cleanedReview.replace(/(\*|_)(.*?)\1/g, '$2')` — remove italic. -/
def removeItalicF : Nat → L → L
  | 0, l => l
  | fuel + 1, l =>
    match l with
    | [] => []
    | c :: rest =>
      if c = '*' || c = '_' then
        match findClose1 c rest with
        | some p => p.1 ++ removeItalicF fuel p.2
        | none => c :: removeItalicF fuel rest
      else c :: removeItalicF fuel rest

def removeItalic (l : L) : L := removeItalicF (l.length + 1) l

/-- `cleanedReview.replace(/^#+\s+/gm, '')` — remove markdown headers.  The
Bool tracks whether the current position is a multiline `^` position. -/
def removeHeadersF : Nat → Bool → L → L
  | 0, _, l => l
  | fuel + 1, bol, l =>
    match l with
    | [] => []
    | c :: rest =>
      if bol && c = '#' then
        if (spanP isJsWs (spanP (fun x => x = '#') (c :: rest)).2).1 = [] then
          c :: removeHeadersF fuel false rest
        else
          removeHeadersF fuel
            (endsWithBreak (spanP isJsWs (spanP (fun x => x = '#') (c :: rest)).2).1)
            (spanP isJsWs (spanP (fun x => x = '#') (c :: rest)).2).2
      else c :: removeHeadersF fuel (isLineTerm c) rest

def removeMdHeaders (l : L) : L := removeHeadersF (l.length + 1) true l

/-- `'--- Code Block'` plus optional ` (lang)` plus `' ---'`. -/
def blockStart (lang : L) : L :=
  "--- Code Block".data ++ (if lang = [] then [] else " (".data ++ lang ++ [')']) ++ " ---".data

def blockEnd : L := "--- End Code Block ---".data

/-- `code.split('\n').forEach(line => out += style(line) + '\n')`. -/
def emitLines (u : Bool) : List L → L
  | [] => []
  | ln :: rest => (if u then codeWrap ln else ln) ++ '\n' :: emitLines u rest

/-- What the code-block loop appends for one matched fenced block. -/
def renderBlock (u : Bool) (lang content : L) : L :=
  '\n' :: (if u then dimWrap (blockStart lang) else blockStart lang) ++
  '\n' :: emitLines u (splitLines content) ++
  (if u then dimWrap blockEnd else blockEnd) ++ ['\n']

/-- The `while ((match = /```([\w]*)\n([\s\S]*?)```/g.exec(...)))` loop. -/
def pcbF (u : Bool) : Nat → L → L
  | 0, l => l
  | fuel + 1, l =>
    match l with
    | [] => []
    | c :: rest =>
      if c = '`' && rest.take 2 = ['`', '`'] then
        if (spanP isWordChar (rest.drop 2)).2.head? = some '\n' then
          match splitAtTriple (spanP isWordChar (rest.drop 2)).2.tail with
          | some p => renderBlock u (spanP isWordChar (rest.drop 2)).1 p.1 ++ pcbF u fuel p.2
          | none => c :: pcbF u fuel rest
        else c :: pcbF u fuel rest
      else c :: pcbF u fuel rest

def processCodeBlocks (u : Bool) (l : L) : L := pcbF u (l.length + 1) l

/-- `.replace(/`([^`]+)`/g, (_, code) => ...)` — inline code spans. -/
def inlineF (u : Bool) : Nat → L → L
  | 0, l => l
  | fuel + 1, l =>
    match l with
    | [] => []
    | c :: rest =>
      if c = '`' then
        match splitAtChar '`' rest with
        | some p =>
          if p.1 = [] then c :: inlineF u fuel rest
          else (if u then codeWrap p.1 else p.1) ++ inlineF u fuel p.2
        | none => c :: inlineF u fuel rest
      else c :: inlineF u fuel rest

def replaceInline (u : Bool) (l : L) : L := inlineF u (l.length + 1) l

/-- `.replace(/^\s*\*/gm, '-')` — bullet normalization. -/
def bulletF : Nat → Bool → L → L
  | 0, _, l => l
  | fuel + 1, bol, l =>
    match l with
    | [] => []
    | c :: rest =>
      if bol then
        if (spanP isJsWs (c :: rest)).2.head? = some '*' then
          '-' :: bulletF fuel false (spanP isJsWs (c :: rest)).2.tail
        else c :: bulletF fuel (isLineTerm c) rest
      else c :: bulletF fuel (isLineTerm c) rest

def bulletReplace (l : L) : L := bulletF (l.length + 1) true l

/-- `.replace(/\*/g, '')` — strip remaining asterisks. -/
def removeAst (l : L) : L := l.filter (fun c => !(c = '*'))

/-- First alternative of the header regex: `^[A-Z][A-Za-z\s]+:`. -/
def headerAlt1 : L → Option (L × L)
  | [] => none
  | c :: rest =>
    if isUpperAZ c then
      if !(spanP (fun x => isAsciiLetter x || isJsWs x) rest).1.isEmpty &&
          (spanP (fun x => isAsciiLetter x || isJsWs x) rest).2.head? = some ':' then
        some (c :: (spanP (fun x => isAsciiLetter x || isJsWs x) rest).1 ++ [':'],
              (spanP (fun x => isAsciiLetter x || isJsWs x) rest).2.tail)
      else none
    else none

def boundaryOk (a? b? : Option Char) : Bool :=
  match a? with
  | some a => isWordChar a != (match b? with | some b => isWordChar b | none => false)
  | none => false

/-- Backtracking for `[A-Z]{2,}[A-Z\s]+\b`: the largest cut of length at least
three whose end is a word boundary. -/
def findCut : Nat → L → L → Option (L × L)
  | 0, _, _ => none
  | k + 1, t, rest =>
    if k + 1 < 3 then none
    else if boundaryOk (t.take (k + 1)).getLast? (t.drop (k + 1) ++ rest).head? then
      some (t.take (k + 1), t.drop (k + 1) ++ rest)
    else findCut k t rest

/-- Second alternative of the header regex: `^\b[A-Z]{2,}[A-Z\s]+\b` (at a line
start the preceding character is a line terminator, so `\b` holds before an
upper-case letter). -/
def headerAlt2 : L → Option (L × L)
  | [] => none
  | c :: rest =>
    if isUpperAZ c then
      if 2 ≤ (spanP isUpperAZ (c :: rest)).1.length then
        findCut (spanP (fun x => isUpperAZ x || isJsWs x) (c :: rest)).1.length
          (spanP (fun x => isUpperAZ x || isJsWs x) (c :: rest)).1
          (spanP (fun x => isUpperAZ x || isJsWs x) (c :: rest)).2
      else none
    else none

/-- The replacement callback: keyword-based recoloring of a matched header. -/
def styleHeader (m : L) : L :=
  if containsSub (toLowerL m) "summary".data || containsSub (toLowerL m) "overview".data then
    greenBoldWrap m
  else if containsSub (toLowerL m) "issue".data || containsSub (toLowerL m) "bug".data ||
      containsSub (toLowerL m) "error".data then redBoldWrap m
  else cyanBoldWrap m

/-- `.replace(/^([A-Z][A-Za-z\s]+:|\b[A-Z]{2,}[A-Z\s]+\b)/gm, header => ...)`. -/
def headerStyleF : Nat → Bool → L → L
  | 0, _, l => l
  | fuel + 1, bol, l =>
    match l with
    | [] => []
    | c :: rest =>
      if bol then
        match headerAlt1 (c :: rest) with
        | some p => styleHeader p.1 ++ headerStyleF fuel (endsWithBreak p.1) p.2
        | none =>
          match headerAlt2 (c :: rest) with
          | some p => styleHeader p.1 ++ headerStyleF fuel (endsWithBreak p.1) p.2
          | none => c :: headerStyleF fuel (isLineTerm c) rest
      else c :: headerStyleF fuel (isLineTerm c) rest

def applyHeaderStyle (l : L) : L := headerStyleF (l.length + 1) true l

/-! ### The renderer -/

def errSentinel : L := "Error reviewing code:".data

def noKeySentinel : L := "⚠️ No Gemini API key found".data

def isSentinel (l : L) : Bool :=
  errSentinel.isPrefixOf l || noKeySentinel.isPrefixOf l

/-- The pure text transform of `formatAndDisplayReview` on a non-empty,
non-sentinel review, in source order: bold, italic, markdown headers,
fenced code blocks, inline code, bullet markers, stray asterisks, and
(only with colors) header recoloring. -/
def renderPipeline (u : Bool) (review : L) : L :=
  if u then
    applyHeaderStyle (removeAst (bulletReplace (replaceInline u
      (processCodeBlocks u (removeMdHeaders (removeItalic (removeBold review)))))))
  else
    removeAst (bulletReplace (replaceInline u
      (processCodeBlocks u (removeMdHeaders (removeItalic (removeBold review))))))

/-- The text `formatAndDisplayReview` prints for a review: the fixed message
for an empty review, the review itself when it starts with one of the two
sentinel prefixes, and the cleaned-up text otherwise. -/
def formatReview (review : L) (u : Bool) : L :=
  if review = [] then "No review generated.".data
  else if isSentinel review then review
  else renderPipeline u review

/-! ### Configuration (the `CR.json` value bag) -/

/-- The configuration fields the review pipeline reads.  Optional string
fields are `Option L`; JS truthiness for absent/empty strings is applied
through `pickS`. -/
structure Config where
  gemini_api_key : Option L := none
  instruction : Option L := none
  prompt : Option L := none
  rules : List L := []
  light_review : Bool := false
  use_colors : Option Bool := none
  model_name : Option L := none

/-- JS truthiness of an optional string: absent and empty are both falsy. -/
def pickS : Option L → Option L
  | some s => if s = [] then none else some s
  | none => none

/-- JS `a || b` on optional strings. -/
def orS (a b : Option L) : Option L :=
  match pickS a with
  | some s => some s
  | none => pickS b

/-- `config.use_colors !== false`. -/
def useColorsOf (cfg : Config) : Bool := !(cfg.use_colors == some false)

/-! ### The prompt builder (`reviewCode`'s `fullInstruction`) -/

def defaultModel : L := "gemini-2.0-flash".data

def supportedModels : List L :=
  ["gemini-2.0-flash".data, "gemini-1.5-flash".data, "gemini-2.5-flash-preview-04-17".data]

/-- `config.model_name || 'gemini-2.0-flash'`. -/
def pickedModel (cfg : Config) : L :=
  match pickS cfg.model_name with
  | some m => m
  | none => defaultModel

/-- The model actually passed to the API call after the supported-model check. -/
def usedModel (cfg : Config) : L :=
  if supportedModels.contains (pickedModel cfg) then pickedModel cfg else defaultModel

/-- `config.instruction || config.prompt || 'Review this code for ...'`. -/
def baseInstr (cfg : Config) : L :=
  match orS cfg.instruction cfg.prompt with
  | some i => i
  | none => "Review this code for bugs, security issues, and best practices.".data

/-- `rules.forEach(rule => fullInstruction += `- ${rule}\n`)`. -/
def bulletedRules : List L → L
  | [] => []
  | r :: rs => '-' :: ' ' :: r ++ '\n' :: bulletedRules rs

/-- The rules section: present only when the rule list is nonempty. -/
def rulesBlock : List L → L
  | [] => []
  | r :: rs => "Please check for the following:".data ++ '\n' :: bulletedRules (r :: rs) ++ ['\n']

/-- Light-review template body (the template literal without its leading and
trailing newline). -/
def lightBody : L :=
  ("Please provide a focused code review with ONLY these two sections:\n\nISSUES:\nList any issues, bugs, or errors found in the code (if any)\n\nBEST PRACTICES:\nNote any best practices that should be followed or improvements that could be made\n\nInclude code examples where appropriate using triple backticks.\n\nIMPORTANT:\n- DO NOT use any asterisks (*) or markdown formatting in your response.\n- DO NOT use **, *, or any other markdown syntax. Use plain text only.\n- For bullet points, use - instead of *. For emphasis, use ALL CAPS instead of asterisks.\n- ALWAYS use the EXACT section headers listed above (in ALL CAPS followed by a colon).\n- If a section doesn't apply (e.g., no issues found), still include the header but note \"No issues found.\"\n- IMPORTANT: Do not use lines that start or end with \"━━━━ Code Block ━━━━\" or \"━━━━ End Code Block ━━━━\" as these are reserved for formatting.").data

def lightTemplate : L := '\n' :: lightBody ++ ['\n']

/-- Full-review template body. -/
def fullBody : L :=
  ("Please format your response with clear section headers for better readability.\nUse the following structure with EXACTLY these section headers:\n\nSUMMARY:\nA brief summary of the changes\n\nISSUES:\nList any issues or bugs found (if any)\n\nSUGGESTIONS:\nProvide suggestions for improvements (if any)\n\nBEST PRACTICES:\nNote any best practices that should be followed\n\nSECURITY:\nMention any security concerns (if applicable)\n\nPERFORMANCE:\nNote any performance considerations (if applicable)\n\nCONCLUSION:\nA brief conclusion\n\nInclude code examples where appropriate using triple backticks.\n\nIMPORTANT:\n- DO NOT use any asterisks (*) or markdown formatting in your response.\n- DO NOT use **, *, or any other markdown syntax. Use plain text only.\n- For bullet points, use - instead of *. For emphasis, use ALL CAPS instead of asterisks.\n- ALWAYS use the EXACT section headers listed above (in ALL CAPS followed by a colon).\n- If a section doesn't apply, you can skip it entirely.\n- IMPORTANT: Do not use lines that start or end with \"━━━━ Code Block ━━━━\" or \"━━━━ End Code Block ━━━━\" as these are reserved for formatting.").data

def fullTemplate : L := '\n' :: fullBody ++ ['\n']

/-- The trailing diff section: `\nHere is the code diff to review:\n\n```\n`
plus the diff plus `\n```\n`. -/
def diffSection (d : L) : L :=
  '\n' :: "Here is the code diff to review:\n\n```".data ++ '\n' :: d ++ '\n' :: "```".data ++ ['\n']

/-- The complete `fullInstruction` string `reviewCode` sends to the model. -/
def buildFullInstruction (cfg : Config) (d : L) : L :=
  baseInstr cfg ++ '\n' :: '\n' :: rulesBlock cfg.rules ++
    (if cfg.light_review then lightTemplate else fullTemplate) ++ diffSection d

/-- The seven full-mode section headers, in the order the template emits them. -/
def headers7 : List L :=
  ["SUMMARY:".data, "ISSUES:".data, "SUGGESTIONS:".data, "BEST PRACTICES:".data,
   "SECURITY:".data, "PERFORMANCE:".data, "CONCLUSION:".data]

def isHeader7 (l : L) : Bool := headers7.any (fun h => l == h)

/-! ### The review client wrapper (`reviewCode`) -/

/-- The no-credential fallback message, with the diff's `split('\n')` line
count and character count interpolated. -/
def noKeyFallback (codeContent : L) : L :=
  '\n' :: ("⚠️ No Gemini API key found\n\nPlease add your Gemini API key to CR.json or set it as an environment variable (GEMINI_API_KEY).\nYou can get a Gemini API key from https://ai.google.dev/\n\nFor now, here's a basic analysis:\n\nSummary:\nThe code contains approximately ").data ++
  natToChars (countLines codeContent) ++ " lines with ".data ++
  natToChars codeContent.length ++
  (" characters.\n\nRecommendation:\nTo get a detailed code review, please configure your Gemini API key using:\n- Add it to CR.json file\n- Or set the GEMINI_API_KEY environment variable\n").data

/-- The error message `reviewCode` returns when the API call throws. -/
def errorReviewText (msg : L) : L :=
  '\n' :: ("Error reviewing code\n\nSummary:\nAn error occurred while trying to review the code with the Gemini API.\n\nDetails:\n").data ++
  msg ++
  ("\n\nRecommendation:\n- Check your internet connection\n- Verify your API key is correct\n- Try again later or use a different model\n").data

/-- Observable console/remote effects, at the level of the display helpers. -/
inductive Ev where
  | sectionHeader (title desc : L)
  | subsectionHeader (t : L)
  | success (t : L)
  | warning (t : L)
  | error (t : L)
  | info (t : L)
  | listFile (path ftype : L)
  | listItem (label value : L)
  | divider
  | blank
  | log (t : L)
  | apiCall (key model : L)
deriving DecidableEq

def modelWarnMsg (m : L) : L :=
  "Model ".data ++ m ++ " not supported. Falling back to gemini-2.0-flash.".data

def modelWarn2Msg (m : L) : L :=
  "Model ".data ++ m ++ " not supported in API call. Using gemini-2.0-flash instead.".data

def apiCallErrMsg : L := "Error calling Gemini API:".data

/-- `reviewCode(codeContent, config)`: the returned review text and the
observable effects.  The fetch to the Gemini endpoint is the opaque
`api key instruction model` collaborator; a thrown error is its `.error`
case and is caught, yielding `errorReviewText`.  With no API key (config
or environment) the statistical fallback is returned and the remote call
is never made. -/
def reviewCode (codeContent : L) (cfg : Config) (envKey : Option L)
    (api : L → L → L → Except L L) : L × List Ev :=
  match orS cfg.gemini_api_key envKey with
  | none => (noKeyFallback codeContent, [])
  | some apiKey =>
    let full := buildFullInstruction cfg codeContent
    let warn1 : List Ev :=
      if supportedModels.contains (pickedModel cfg) then []
      else [.warning (modelWarnMsg (pickedModel cfg))]
    let warn2 : List Ev :=
      if supportedModels.contains (usedModel cfg) then []
      else [.warning (modelWarn2Msg (usedModel cfg))]
    match api apiKey full (usedModel cfg) with
    | .ok t => (t, warn1 ++ warn2 ++ [.apiCall apiKey (usedModel cfg)])
    | .error e =>
      (errorReviewText e, warn1 ++ warn2 ++ [.apiCall apiKey (usedModel cfg), .error apiCallErrMsg])

/-! ### The orchestrator (`changesCommand`) -/

/-- The repository/configuration environment `changesCommand` runs against:
`diffOf` is `git.diff([file])` (`.error` = thrown), `api` the remote call. -/
structure Env where
  config : Option Config
  isRepo : Bool
  modified : List L
  created : List L
  renamedTo : List L
  envKey : Option L
  diffOf : L → Except L L
  api : L → L → L → Except L L

structure RunResult where
  events : List Ev
  reviewed : Nat
  skipped : Nat
  summaryPrinted : Bool

/-- `path.basename`: the final path segment. -/
def basenameL (f : L) : L := (f.reverse.takeWhile (fun c => !(c = '/'))).reverse

/-- `path.extname`: from the last dot of the basename, empty for dotfiles and
dotless names. -/
def extnameL (f : L) : L :=
  let b := basenameL f
  let revExt := b.reverse.takeWhile (fun c => !(c = '.'))
  if revExt.length + 1 < b.length then '.' :: revExt.reverse
  else if revExt.length + 1 = b.length then ['.']
  else []

def extIn (ext : L) (names : List String) : Bool :=
  names.any (fun n => ext == '.' :: n.data)

/-- The extension-based file-type label of the changed-files listing. -/
def fileTypeOf (f : L) : L :=
  let ext := toLowerL (extnameL f)
  if extIn ext ["js", "jsx", "ts", "tsx"] then "JavaScript/TypeScript".data
  else if extIn ext ["py"] then "Python".data
  else if extIn ext ["java"] then "Java".data
  else if extIn ext ["c", "cpp", "h", "hpp"] then "C/C++".data
  else if extIn ext ["cs"] then "C#".data
  else if extIn ext ["go"] then "Go".data
  else if extIn ext ["rb"] then "Ruby".data
  else if extIn ext ["php"] then "PHP".data
  else if extIn ext ["html", "css", "scss"] then "Web".data
  else if extIn ext ["json", "md", "txt"] then "Text".data
  else "Unknown".data

def reviewableExts : List String :=
  ["js", "jsx", "ts", "tsx", "py", "java", "c", "cpp", "h", "hpp", "cs", "go",
   "rb", "php", "html", "css", "scss", "json", "md", "txt"]

/-- `file.match(/\.(js|...|txt)$/i)`: case-insensitive extension suffix test. -/
def isReviewable (f : L) : Bool :=
  reviewableExts.any (fun n => ('.' :: n.data).isSuffixOf (toLowerL f))

/-- Split on the two-character sequence `\n` (a backslash and an `n`): the
source writes `diff.split('\\n')`, which splits on the literal text. -/
def splitOnPair (a b : Char) : L → List L
  | [] => [[]]
  | [c] => [[c]]
  | c1 :: c2 :: rest =>
    if c1 = a && c2 = b then [] :: splitOnPair a b rest
    else
      match splitOnPair a b (c2 :: rest) with
      | h :: t => (c1 :: h) :: t
      | [] => [[c1]]

def changesLinesMsg (d : L) : L :=
  natToChars (splitOnPair '\\' 'n' d).length ++ " lines".data

def cfgNotFoundMsg : L := "CR configuration not found. Run \"cr init\" first.".data

def notRepoMsg : L := "Not a git repository. Please run this command in a git repository.".data

def checkingMsg : L := "Checking for changes in your repository...".data

def noChangesMsg : L := "No changed files found in your repository.".data

def tryAgainMsg : L := "Make some changes and try again, or commit your current changes.".data

def foundFilesMsg (n : Nat) : L := "Found ".data ++ natToChars n ++ " Changed Files".data

def usingModelMsg (cfg : Config) : L := "Using model: ".data ++ pickedModel cfg

def skipBinaryMsg (f : L) : L := "Skipping likely binary file: ".data ++ f

def noDiffMsg (f : L) : L := "No diff available for ".data ++ f

def reviewingMsg (f : L) : L := "Reviewing ".data ++ basenameL f

def processErrMsg (f : L) : L := "Error processing ".data ++ f ++ [':']

def summaryDoneMsg : L := "Code review completed successfully!".data

/-- What `formatAndDisplayReview` prints: the divider-bounded rendered body,
or the raw sentinel / fixed empty-review message with no dividers. -/
def displayEvents (review : L) (cfg : Config) : List Ev :=
  if review = [] then [.log "No review generated.".data]
  else if isSentinel review then [.log review]
  else
    [.divider, .log ('\n' :: renderPipeline (useColorsOf cfg) review ++ ['\n']), .divider]

/-- One iteration of the per-file loop: the events it prints and its
(reviewed, skipped) increments.  A thrown diff retrieval is caught by the
loop's `try`/`catch` and reported; a remote-call failure has already been
converted to review text by `reviewCode`. -/
def processFile (cfg : Config) (env : Env) (f : L) : List Ev × Nat × Nat :=
  if !(isReviewable f) then ([.warning (skipBinaryMsg f)], 0, 1)
  else
    match env.diffOf f with
    | .error e => ([.error (processErrMsg f), .log e], 0, 0)
    | .ok d =>
      if d = [] then ([.warning (noDiffMsg f)], 0, 1)
      else
        let r := reviewCode d cfg env.envKey env.api
        ([.subsectionHeader (reviewingMsg f), .listItem "File".data f,
          .listItem "Changes".data (changesLinesMsg d), .blank] ++
          r.2 ++ displayEvents r.1 cfg, 1, 0)

def summaryEvents (cfg : Config) (reviewed skipped total : Nat) : List Ev :=
  [.sectionHeader "REVIEW SUMMARY".data "Results of code review".data,
   .listItem "Files reviewed".data (natToChars reviewed ++ '/' :: natToChars total),
   .listItem "Files skipped".data (natToChars skipped),
   .listItem "Model used".data (pickedModel cfg),
   .blank, .success summaryDoneMsg]

/-- The whole `changesCommand` run: precondition checks, the changed-files
listing, the sequential per-file loop, and the summary block. -/
def changesCommand (env : Env) : RunResult :=
  let ev0 : List Ev := [.sectionHeader "CODE REVIEW".data "Reviewing changes in your git repository".data]
  match env.config with
  | none => ⟨ev0 ++ [.warning cfgNotFoundMsg], 0, 0, false⟩
  | some cfg =>
    if !env.isRepo then ⟨ev0 ++ [.error notRepoMsg], 0, 0, false⟩
    else
      let changed := env.modified ++ env.created ++ env.renamedTo
      let ev1 := ev0 ++ [.info checkingMsg]
      if changed = [] then ⟨ev1 ++ [.warning noChangesMsg, .info tryAgainMsg], 0, 0, false⟩
      else
        let evList := [.subsectionHeader (foundFilesMsg changed.length)] ++
          changed.map (fun f => Ev.listFile f (fileTypeOf f)) ++
          [.blank, .info (usingModelMsg cfg), .divider]
        let step := fun (acc : List Ev × Nat × Nat) (f : L) =>
          let r := processFile cfg env f
          (acc.1 ++ r.1, acc.2.1 + r.2.1, acc.2.2 + r.2.2)
        let res := changed.foldl step ([], 0, 0)
        ⟨ev1 ++ evList ++ res.1 ++ summaryEvents cfg res.2.1 res.2.2 changed.length,
         res.2.1, res.2.2, true⟩

/-- The lines contributed by the rules section. -/
def rulesLines : List L → List L
  | [] => []
  | r :: rs =>
    "Please check for the following:".data ::
      ((r :: rs).flatMap fun q => splitLines ('-' :: ' ' :: q)) ++ [[]]

/-- The lines contributed by the trailing diff section. -/
def diffLines (d : L) : List L :=
  [] :: "Here is the code diff to review:".data :: [] :: "```".data ::
    (splitLines d ++ ["```".data, []])

/-- The `split('\n')` lines of the built instruction, segment by segment. -/
def promptLines (cfg : Config) (d : L) : List L :=
  splitLines (baseInstr cfg) ++ [[]] ++ rulesLines cfg.rules ++
    [] :: (splitLines (if cfg.light_review then lightBody else fullBody) ++ diffLines d)

/-- No line of the text begins with `#` (tracking multiline `^` positions the
same way the header-removal pass does). -/
def hashFreeF : Bool → L → Bool
  | _, [] => true
  | bol, c :: rest => !(bol && c = '#') && hashFreeF (isLineTerm c) rest

def noHashLineStart (l : L) : Bool := hashFreeF true l

/-- Concrete configuration for the three-file scenario run: an API key and
defaults everywhere else. -/
def cfgThree : Config := { gemini_api_key := some "k".data }

/-- Concrete three-file environment whose remote call fails (rate limited)
exactly for `b.js`, the second of three reviewable changed files. -/
def envThree : Env :=
  { config := some cfgThree, isRepo := true,
    modified := ["a.js".data, "b.js".data, "c.js".data], created := [], renamedTo := [],
    envKey := none,
    diffOf := fun f =>
      if f = "b.js".data then .ok "+bbb".data
      else if f = "a.js".data then .ok "+aaa".data
      else .ok "+ccc".data,
    api := fun _ instr _ =>
      if containsSub instr "+bbb".data then .error "rate limited".data
      else .ok "Looks good.".data }

/-- Concrete full-mode configuration with an instruction and two rules. -/
def cfgFive : Config :=
  { gemini_api_key := some "k".data, instruction := some "I".data,
    rules := ["r1".data, "r2".data] }

/-- Concrete light-mode configuration whose base instruction is itself a
header line. -/
def cfgLightSummary : Config :=
  { instruction := some "SUMMARY:".data, light_review := true }

/-- Environment with no configuration file. -/
def envNoCfg : Env :=
  { config := none, isRepo := true, modified := ["a.js".data], created := [],
    renamedTo := [], envKey := none, diffOf := fun _ => .ok "+x".data,
    api := fun _ _ _ => .ok "ok".data }

/-- Environment with a configuration but no git repository. -/
def envNoRepo : Env :=
  { config := some {}, isRepo := false, modified := ["a.js".data], created := [],
    renamedTo := [], envKey := none, diffOf := fun _ => .ok "+x".data,
    api := fun _ _ _ => .ok "ok".data }

/-! ## Lemmas: basic facts about the scanner building blocks -/

theorem spanP_append (p : Char → Bool) : ∀ l : L, (spanP p l).1 ++ (spanP p l).2 = l := by
  intro l
  induction l with
  | nil => rfl
  | cons c rest ih =>
    by_cases h : p c = true
    · simp [spanP, h, ih]
    · simp [spanP, h]

theorem spanP_of_all (p : Char → Bool) :
    ∀ a : L, ∀ y : Char, ∀ b : L, (∀ c ∈ a, p c = true) → p y = false →
      spanP p (a ++ y :: b) = (a, y :: b) := by
  intro a
  induction a with
  | nil =>
    intro y b _ hy
    simp [spanP, hy]
  | cons c a' ih =>
    intro y b ha hy
    have hc : p c = true := ha c (List.mem_cons_self c a')
    have ha' : ∀ x ∈ a', p x = true := fun x hx => ha x (List.mem_cons_of_mem c hx)
    simp [spanP, hc, ih y b ha' hy]

theorem findClose2_eq (c : Char) :
    ∀ l p1 p2, findClose2 c l = some (p1, p2) → l = p1 ++ c :: c :: p2 := by
  intro l
  induction l with
  | nil => intro p1 p2 h; simp [findClose2] at h
  | cons a rest ih =>
    intro p1 p2 h
    rw [findClose2] at h
    by_cases h1 : (a = c && rest.head? = some c) = true
    · rw [if_pos h1] at h
      have h1' : a = c ∧ rest.head? = some c := by simpa using h1
      cases rest with
      | nil => simp at h1'
      | cons b rest' =>
        have hb : b = c := by simpa using h1'.2
        simp only [Option.some.injEq, Prod.mk.injEq] at h
        rw [← h.1, ← h.2, h1'.1, hb]
        rfl
    · rw [if_neg h1] at h
      by_cases h2 : isLineTerm a = true
      · rw [if_pos h2] at h; simp at h
      · rw [if_neg h2] at h
        cases hfc : findClose2 c rest with
        | none => rw [hfc] at h; simp at h
        | some q =>
          rw [hfc] at h
          simp only [Option.map_some', Option.some.injEq, Prod.mk.injEq] at h
          have hq := ih q.1 q.2 (by rw [hfc])
          rw [← h.1, ← h.2]
          simp [hq]

theorem findClose1_eq (c : Char) :
    ∀ l p1 p2, findClose1 c l = some (p1, p2) → l = p1 ++ c :: p2 := by
  intro l
  induction l with
  | nil => intro p1 p2 h; simp [findClose1] at h
  | cons a rest ih =>
    intro p1 p2 h
    rw [findClose1] at h
    by_cases h1 : a = c
    · rw [if_pos h1] at h
      simp only [Option.some.injEq, Prod.mk.injEq] at h
      rw [← h.1, ← h.2, h1]
      rfl
    · rw [if_neg h1] at h
      by_cases h2 : isLineTerm a = true
      · rw [if_pos h2] at h; simp at h
      · rw [if_neg h2] at h
        cases hfc : findClose1 c rest with
        | none => rw [hfc] at h; simp at h
        | some q =>
          rw [hfc] at h
          simp only [Option.map_some', Option.some.injEq, Prod.mk.injEq] at h
          have hq := ih q.1 q.2 (by rw [hfc])
          rw [← h.1, ← h.2]
          simp [hq]

theorem splitAtChar_eq (c : Char) :
    ∀ l p1 p2, splitAtChar c l = some (p1, p2) → l = p1 ++ c :: p2 := by
  intro l
  induction l with
  | nil => intro p1 p2 h; simp [splitAtChar] at h
  | cons a rest ih =>
    intro p1 p2 h
    rw [splitAtChar] at h
    by_cases h1 : a = c
    · rw [if_pos h1] at h
      simp only [Option.some.injEq, Prod.mk.injEq] at h
      rw [← h.1, ← h.2, h1]
      rfl
    · rw [if_neg h1] at h
      cases hfc : splitAtChar c rest with
      | none => rw [hfc] at h; simp at h
      | some q =>
        rw [hfc] at h
        simp only [Option.map_some', Option.some.injEq, Prod.mk.injEq] at h
        have hq := ih q.1 q.2 (by rw [hfc])
        rw [← h.1, ← h.2]
        simp [hq]

theorem splitAtTriple_eq :
    ∀ l p1 p2, splitAtTriple l = some (p1, p2) → l = p1 ++ '`' :: '`' :: '`' :: p2 := by
  intro l
  induction l with
  | nil => intro p1 p2 h; simp [splitAtTriple] at h
  | cons a rest ih =>
    intro p1 p2 h
    rw [splitAtTriple] at h
    by_cases h1 : (a = '`' && rest.take 2 = ['`', '`']) = true
    · rw [if_pos h1] at h
      have h1' : a = '`' ∧ rest.take 2 = ['`', '`'] := by simpa using h1
      cases rest with
      | nil => simp at h1'
      | cons b rest' =>
        cases rest' with
        | nil => simp at h1'
        | cons b2 rest2 =>
          have ht := h1'.2
          simp only [List.take, List.cons.injEq] at ht
          simp only [Option.some.injEq, Prod.mk.injEq] at h
          rw [← h.1, ← h.2, h1'.1, ht.1, ht.2.1]
          rfl
    · rw [if_neg h1] at h
      cases hfc : splitAtTriple rest with
      | none => rw [hfc] at h; simp at h
      | some q =>
        rw [hfc] at h
        simp only [Option.map_some', Option.some.injEq, Prod.mk.injEq] at h
        have hq := ih q.1 q.2 (by rw [hfc])
        rw [← h.1, ← h.2]
        simp [hq]

theorem splitAtTriple_clean :
    ∀ a b : L, '`' ∉ a → splitAtTriple (a ++ '`' :: '`' :: '`' :: b) = some (a, b) := by
  intro a
  induction a with
  | nil => intro b _; simp [splitAtTriple]
  | cons c a' ih =>
    intro b h
    have hc : ¬ c = '`' := fun hc => h (by simp [hc])
    have h' : '`' ∉ a' := fun hm => h (List.mem_cons_of_mem c hm)
    rw [List.cons_append, splitAtTriple, if_neg (by simp [hc]), ih b h']
    rfl

theorem splitLines_ne_nil : ∀ l : L, splitLines l ≠ [] := by
  intro l
  cases l with
  | nil => simp [splitLines]
  | cons c rest =>
    rw [splitLines]
    by_cases hc : c = '\n'
    · simp [hc]
    · rw [if_neg hc]
      cases splitLines rest with
      | nil => simp
      | cons h t => simp

theorem splitLines_cons_ne (c : Char) (l : L) (hc : ¬ c = '\n') :
    ∀ h t, splitLines l = h :: t → splitLines (c :: l) = (c :: h) :: t := by
  intro h t hs
  rw [splitLines, if_neg hc, hs]

theorem splitLines_append : ∀ a b : L, splitLines (a ++ '\n' :: b) = splitLines a ++ splitLines b := by
  intro a
  induction a with
  | nil => intro b; simp [splitLines]
  | cons c a' ih =>
    intro b
    by_cases hc : c = '\n'
    · subst hc
      rw [List.cons_append, splitLines, if_pos rfl, ih b, splitLines, if_pos rfl]
      rfl
    · rw [List.cons_append]
      cases hs : splitLines a' with
      | nil => exact absurd hs (splitLines_ne_nil a')
      | cons h t =>
        have l1 : splitLines (a' ++ '\n' :: b) = h :: (t ++ splitLines b) := by
          rw [ih b, hs]; rfl
        rw [splitLines_cons_ne c _ hc h (t ++ splitLines b) l1,
            splitLines_cons_ne c a' hc h t hs]
        rfl

theorem mem_splitLines : ∀ l ln (c : Char), ln ∈ splitLines l → c ∈ ln → c ∈ l := by
  intro l
  induction l with
  | nil =>
    intro ln c hln hc
    simp [splitLines] at hln
    subst hln
    simp at hc
  | cons a rest ih =>
    intro ln c hln hc
    rw [splitLines] at hln
    by_cases ha : a = '\n'
    · rw [if_pos ha] at hln
      rcases List.mem_cons.mp hln with h | h
      · subst h; simp at hc
      · exact List.mem_cons_of_mem a (ih ln c h hc)
    · rw [if_neg ha] at hln
      cases hs : splitLines rest with
      | nil => exact absurd hs (splitLines_ne_nil rest)
      | cons h t =>
        rw [hs] at hln
        rcases List.mem_cons.mp hln with h1 | h1
        · subst h1
          rcases List.mem_cons.mp hc with h2 | h2
          · rw [h2]; exact List.mem_cons_self a rest
          · exact List.mem_cons_of_mem a
              (ih h c (by rw [hs]; exact List.mem_cons_self h t) h2)
        · exact List.mem_cons_of_mem a
            (ih ln c (by rw [hs]; exact List.mem_cons_of_mem h h1) hc)

/-! ## Lemmas: the cleanup passes are the identity on texts without their
trigger characters -/

theorem removeBoldF_id : ∀ f (l : L), '*' ∉ l → '_' ∉ l → removeBoldF f l = l := by
  intro f
  induction f with
  | zero => intro l _ _; rfl
  | succ n ih =>
    intro l h1 h2
    cases l with
    | nil => rfl
    | cons c1 rest =>
      cases rest with
      | nil => rfl
      | cons c2 rest2 =>
        have hc1s : ¬ c1 = '*' := fun e => h1 (by simp [e])
        have hc1u : ¬ c1 = '_' := fun e => h2 (by simp [e])
        rw [removeBoldF, if_neg (by simp [hc1s, hc1u])]
        rw [ih (c2 :: rest2) (fun hm => h1 (List.mem_cons_of_mem c1 hm))
            (fun hm => h2 (List.mem_cons_of_mem c1 hm))]

theorem removeItalicF_id : ∀ f (l : L), '*' ∉ l → '_' ∉ l → removeItalicF f l = l := by
  intro f
  induction f with
  | zero => intro l _ _; rfl
  | succ n ih =>
    intro l h1 h2
    cases l with
    | nil => rfl
    | cons c rest =>
      have hcs : ¬ c = '*' := fun e => h1 (by simp [e])
      have hcu : ¬ c = '_' := fun e => h2 (by simp [e])
      rw [removeItalicF, if_neg (by simp [hcs, hcu])]
      rw [ih rest (fun hm => h1 (List.mem_cons_of_mem c hm))
          (fun hm => h2 (List.mem_cons_of_mem c hm))]

theorem hashFreeF_of_not_mem : ∀ (l : L) (bol : Bool), '#' ∉ l → hashFreeF bol l = true := by
  intro l
  induction l with
  | nil => intro bol _; rfl
  | cons c rest ih =>
    intro bol h
    have hc : ¬ c = '#' := fun e => h (by simp [e])
    rw [hashFreeF]
    simp [hc, ih (isLineTerm c) (fun hm => h (List.mem_cons_of_mem c hm))]

theorem removeHeadersF_id : ∀ f (bol : Bool) (l : L), hashFreeF bol l = true →
    removeHeadersF f bol l = l := by
  intro f
  induction f with
  | zero => intro bol l _; rfl
  | succ n ih =>
    intro bol l h
    cases l with
    | nil => rfl
    | cons c rest =>
      rw [hashFreeF] at h
      simp only [Bool.and_eq_true] at h
      have hcond : ¬ ((bol && decide (c = '#')) = true) := by
        intro hb
        rw [hb] at h
        simp at h
      rw [removeHeadersF]
      simp only [if_neg hcond]
      rw [ih (isLineTerm c) rest h.2]

theorem pcbF_id (u : Bool) : ∀ f (l : L), '`' ∉ l → pcbF u f l = l := by
  intro f
  induction f with
  | zero => intro l _; rfl
  | succ n ih =>
    intro l h
    cases l with
    | nil => rfl
    | cons c rest =>
      have hc : ¬ c = '`' := fun e => h (by simp [e])
      rw [pcbF, if_neg (by simp [hc])]
      rw [ih rest (fun hm => h (List.mem_cons_of_mem c hm))]

theorem inlineF_id (u : Bool) : ∀ f (l : L), '`' ∉ l → inlineF u f l = l := by
  intro f
  induction f with
  | zero => intro l _; rfl
  | succ n ih =>
    intro l h
    cases l with
    | nil => rfl
    | cons c rest =>
      have hc : ¬ c = '`' := fun e => h (by simp [e])
      rw [inlineF, if_neg hc]
      rw [ih rest (fun hm => h (List.mem_cons_of_mem c hm))]

theorem bulletF_id : ∀ f (bol : Bool) (l : L), '*' ∉ l → bulletF f bol l = l := by
  intro f
  induction f with
  | zero => intro bol l _; rfl
  | succ n ih =>
    intro bol l h
    cases l with
    | nil => rfl
    | cons c rest =>
      have hrec := ih (isLineTerm c) rest (fun hm => h (List.mem_cons_of_mem c hm))
      cases bol with
      | false => rw [bulletF]; simp only [Bool.false_eq_true, if_false]; rw [hrec]
      | true =>
        have hstar : ¬ (spanP isJsWs (c :: rest)).2.head? = some '*' := by
          intro hh
          apply h
          have hmem : '*' ∈ (spanP isJsWs (c :: rest)).2 := by
            cases hsp : (spanP isJsWs (c :: rest)).2 with
            | nil => rw [hsp] at hh; simp at hh
            | cons x xs =>
              rw [hsp] at hh
              simp at hh
              rw [hh]
              exact List.mem_cons_self _ _
          rw [← spanP_append isJsWs (c :: rest)]
          exact List.mem_append_right _ hmem
        rw [bulletF, if_pos rfl, if_neg hstar, hrec]

theorem removeAst_id (l : L) (h : '*' ∉ l) : removeAst l = l := by
  rw [removeAst, List.filter_eq_self]
  intro c hc
  simp
  exact fun e => h (e ▸ hc)

/-! ## Lemmas: characters of a pass's output come from its input -/

theorem mem_removeBoldF : ∀ f (l : L) (c : Char), c ∈ removeBoldF f l → c ∈ l := by
  intro f
  induction f with
  | zero => intro l c h; exact h
  | succ n ih =>
    intro l c h
    cases l with
    | nil => exact h
    | cons c1 rest =>
      cases rest with
      | nil => exact h
      | cons c2 rest2 =>
        rw [removeBoldF] at h
        by_cases hcond : ((c1 = '*' && c2 = '*') || (c1 = '_' && c2 = '_')) = true
        · rw [if_pos hcond] at h
          cases hfc : findClose2 c1 rest2 with
          | none =>
            rw [hfc] at h
            rcases List.mem_cons.mp h with h1 | h1
            · simp [h1]
            · exact List.mem_cons_of_mem c1 (ih (c2 :: rest2) c h1)
          | some q =>
            rw [hfc] at h
            have hdec := findClose2_eq c1 rest2 q.1 q.2 (by rw [hfc])
            rcases List.mem_append.mp h with h1 | h1
            · apply List.mem_cons_of_mem c1
              apply List.mem_cons_of_mem c2
              rw [hdec]
              exact List.mem_append_left _ h1
            · apply List.mem_cons_of_mem c1
              apply List.mem_cons_of_mem c2
              rw [hdec]
              refine List.mem_append_right _ ?_
              exact List.mem_cons_of_mem _ (List.mem_cons_of_mem _ (ih q.2 c h1))
        · rw [if_neg hcond] at h
          rcases List.mem_cons.mp h with h1 | h1
          · simp [h1]
          · exact List.mem_cons_of_mem c1 (ih (c2 :: rest2) c h1)

theorem mem_removeItalicF : ∀ f (l : L) (c : Char), c ∈ removeItalicF f l → c ∈ l := by
  intro f
  induction f with
  | zero => intro l c h; exact h
  | succ n ih =>
    intro l c h
    cases l with
    | nil => exact h
    | cons c1 rest =>
      rw [removeItalicF] at h
      by_cases hcond : (c1 = '*' || c1 = '_') = true
      · rw [if_pos hcond] at h
        cases hfc : findClose1 c1 rest with
        | none =>
          rw [hfc] at h
          rcases List.mem_cons.mp h with h1 | h1
          · simp [h1]
          · exact List.mem_cons_of_mem c1 (ih rest c h1)
        | some q =>
          rw [hfc] at h
          have hdec := findClose1_eq c1 rest q.1 q.2 (by rw [hfc])
          rcases List.mem_append.mp h with h1 | h1
          · apply List.mem_cons_of_mem c1
            rw [hdec]
            exact List.mem_append_left _ h1
          · apply List.mem_cons_of_mem c1
            rw [hdec]
            exact List.mem_append_right _ (List.mem_cons_of_mem _ (ih q.2 c h1))
      · rw [if_neg hcond] at h
        rcases List.mem_cons.mp h with h1 | h1
        · simp [h1]
        · exact List.mem_cons_of_mem c1 (ih rest c h1)

theorem mem_removeHeadersF : ∀ f (bol : Bool) (l : L) (c : Char),
    c ∈ removeHeadersF f bol l → c ∈ l := by
  intro f
  induction f with
  | zero => intro bol l c h; exact h
  | succ n ih =>
    intro bol l c h
    cases l with
    | nil => exact h
    | cons c1 rest =>
      rw [removeHeadersF] at h
      by_cases hcond : (bol && c1 = '#') = true
      · rw [if_pos hcond] at h
        by_cases hws : (spanP isJsWs (spanP (fun x => x = '#') (c1 :: rest)).2).1 = []
        · rw [if_pos hws] at h
          rcases List.mem_cons.mp h with h1 | h1
          · simp [h1]
          · exact List.mem_cons_of_mem c1 (ih false rest c h1)
        · rw [if_neg hws] at h
          have hmem := ih _ _ c h
          have hsub : (spanP isJsWs (spanP (fun x => x = '#') (c1 :: rest)).2).2 ⊆
              (c1 :: rest) := by
            intro x hx
            rw [← spanP_append (fun x => x = '#') (c1 :: rest)]
            refine List.mem_append_right _ ?_
            rw [← spanP_append isJsWs (spanP (fun x => x = '#') (c1 :: rest)).2]
            exact List.mem_append_right _ hx
          exact hsub hmem
      · rw [if_neg hcond] at h
        rcases List.mem_cons.mp h with h1 | h1
        · simp [h1]
        · exact List.mem_cons_of_mem c1 (ih (isLineTerm c1) rest c h1)

theorem mem_bulletF : ∀ f (bol : Bool) (l : L) (c : Char),
    c ∈ bulletF f bol l → c ∈ l ∨ c = '-' := by
  intro f
  induction f with
  | zero => intro bol l c h; exact Or.inl h
  | succ n ih =>
    intro bol l c h
    cases l with
    | nil => exact Or.inl h
    | cons c1 rest =>
      rw [bulletF] at h
      by_cases hbol : bol = true
      · rw [if_pos hbol] at h
        by_cases hstar : (spanP isJsWs (c1 :: rest)).2.head? = some '*'
        · rw [if_pos hstar] at h
          rcases List.mem_cons.mp h with h1 | h1
          · exact Or.inr h1
          · rcases ih false _ c h1 with h2 | h2
            · left
              have hsub : (spanP isJsWs (c1 :: rest)).2.tail ⊆ (c1 :: rest) := by
                intro x hx
                rw [← spanP_append isJsWs (c1 :: rest)]
                refine List.mem_append_right _ ?_
                exact List.mem_of_mem_tail hx
              exact hsub h2
            · exact Or.inr h2
        · rw [if_neg hstar] at h
          rcases List.mem_cons.mp h with h1 | h1
          · left; simp [h1]
          · rcases ih (isLineTerm c1) rest c h1 with h2 | h2
            · exact Or.inl (List.mem_cons_of_mem c1 h2)
            · exact Or.inr h2
      · rw [if_neg hbol] at h
        rcases List.mem_cons.mp h with h1 | h1
        · left; simp [h1]
        · rcases ih (isLineTerm c1) rest c h1 with h2 | h2
          · exact Or.inl (List.mem_cons_of_mem c1 h2)
          · exact Or.inr h2

/-! ## Lemmas: the code-block pass -/

theorem pcbF_nil (u : Bool) : ∀ f, pcbF u f [] = [] := by
  intro f
  cases f <;> rfl

theorem spanP_len (p : Char → Bool) (l : L) :
    (spanP p l).1.length + (spanP p l).2.length = l.length := by
  have h := congrArg List.length (spanP_append p l)
  simpa using h

theorem pcbF_fuel (u : Bool) : ∀ n (l : L), l.length = n →
    ∀ f1 f2, l.length ≤ f1 → l.length ≤ f2 → pcbF u f1 l = pcbF u f2 l := by
  intro n
  induction n using Nat.strong_induction_on with
  | _ n ihn =>
    intro l hn f1 f2 h1 h2
    cases l with
    | nil => rw [pcbF_nil, pcbF_nil]
    | cons c rest =>
      cases f1 with
      | zero => simp at h1
      | succ g1 =>
        cases f2 with
        | zero => simp at h2
        | succ g2 =>
          rw [pcbF, pcbF]
          have hrest : rest.length < n := by simp at hn; omega
          have hg1 : rest.length ≤ g1 := by simp at h1; omega
          have hg2 : rest.length ≤ g2 := by simp at h2; omega
          have hrec := ihn rest.length hrest rest rfl g1 g2 hg1 hg2
          by_cases hc : (c = '`' && rest.take 2 = ['`', '`']) = true

          · rw [if_pos hc, if_pos hc]
            by_cases hnl : (spanP isWordChar (rest.drop 2)).2.head? = some '\n'
            · rw [if_pos hnl, if_pos hnl]
              cases hsp : splitAtTriple (spanP isWordChar (rest.drop 2)).2.tail with
              | none => dsimp only; rw [hrec]
              | some q =>
                have hdec := splitAtTriple_eq _ q.1 q.2 (by rw [hsp])
                have e1 := spanP_len isWordChar (rest.drop 2)
                have e2 : (rest.drop 2).length = rest.length - 2 := List.length_drop 2 rest
                have e3 : (spanP isWordChar (rest.drop 2)).2.tail.length =
                    (spanP isWordChar (rest.drop 2)).2.length - 1 := List.length_tail _
                have e4 := congrArg List.length hdec
                simp [List.length_append] at e4
                have hq : q.2.length < n := by simp at hn; omega
                have hq1 : q.2.length ≤ g1 := by omega
                have hq2 : q.2.length ≤ g2 := by omega
                dsimp only
                rw [ihn q.2.length hq q.2 rfl g1 g2 hq1 hq2]
            · rw [if_neg hnl, if_neg hnl, hrec]
          · rw [if_neg hc, if_neg hc, hrec]

theorem pcbF_eq_top (u : Bool) (l : L) (f : Nat) (h : l.length ≤ f) :
    pcbF u f l = processCodeBlocks u l := by
  rw [processCodeBlocks]
  exact pcbF_fuel u l.length l rfl f (l.length + 1) h (Nat.le_succ _)

theorem pcb_append (u : Bool) : ∀ a b : L, '`' ∉ a →
    processCodeBlocks u (a ++ b) = a ++ processCodeBlocks u b := by
  intro a
  induction a with
  | nil => intro b _; simp
  | cons c a' ih =>
    intro b h
    have hc : ¬ c = '`' := fun e => h (by simp [e])
    have h' : '`' ∉ a' := fun hm => h (List.mem_cons_of_mem c hm)
    show pcbF u ((c :: (a' ++ b)).length + 1) (c :: (a' ++ b)) = (c :: a') ++ processCodeBlocks u b
    have hl : (c :: (a' ++ b)).length + 1 = ((a' ++ b).length + 1) + 1 := by simp
    rw [hl, pcbF, if_neg (by simp [hc])]
    show c :: processCodeBlocks u (a' ++ b) = (c :: a') ++ processCodeBlocks u b
    rw [ih b h']
    rfl

theorem pcb_fence (u : Bool) (lang content post : L)
    (hlang : ∀ c ∈ lang, isWordChar c = true) (hcon : '`' ∉ content) :
    processCodeBlocks u ('`' :: '`' :: '`' :: (lang ++ '\n' :: (content ++ '`' :: '`' :: '`' :: post)))
      = renderBlock u lang content ++ processCodeBlocks u post := by
  rw [processCodeBlocks, pcbF]
  have hcond : (('`' : Char) = '`' &&
      (('`' :: '`' :: (lang ++ '\n' :: (content ++ '`' :: '`' :: '`' :: post))).take 2
        = ['`', '`'] : Bool)) = true := by simp
  rw [if_pos hcond]
  have hdrop : ('`' :: '`' :: (lang ++ '\n' :: (content ++ '`' :: '`' :: '`' :: post))).drop 2
      = lang ++ '\n' :: (content ++ '`' :: '`' :: '`' :: post) := rfl
  rw [hdrop]
  have hspan := spanP_of_all isWordChar lang '\n' (content ++ '`' :: '`' :: '`' :: post)
    hlang (by decide)
  rw [hspan]
  simp only [List.head?_cons, List.tail_cons]
  rw [if_pos trivial, splitAtTriple_clean content post hcon]
  dsimp only
  have hfl : post.length ≤
      ('`' :: '`' :: '`' :: (lang ++ '\n' :: (content ++ '`' :: '`' :: '`' :: post))).length := by
    simp [List.length_append]
    omega
  rw [pcbF_eq_top u post _ hfl]

/-! ## Lemmas: stripping the inserted styling recovers the text -/

theorem stripAnsiF_id : ∀ l : L, escChar ∉ l → stripAnsiF false l = l := by
  intro l
  induction l with
  | nil => intro _; rfl
  | cons c rest ih =>
    intro h
    have hc : ¬ c = escChar := fun e => h (by simp [e])
    rw [stripAnsiF, if_neg hc, ih (fun hm => h (List.mem_cons_of_mem c hm))]

theorem stripAnsiF_append_clean : ∀ a b : L, escChar ∉ a →
    stripAnsiF false (a ++ b) = a ++ stripAnsiF false b := by
  intro a
  induction a with
  | nil => intro b _; rfl
  | cons c a' ih =>
    intro b h
    have hc : ¬ c = escChar := fun e => h (by simp [e])
    rw [List.cons_append, stripAnsiF, if_neg hc, ih b (fun hm => h (List.mem_cons_of_mem c hm))]
    rfl

theorem stripAnsiF_true_skip : ∀ code b : L, 'm' ∉ code →
    stripAnsiF true (code ++ 'm' :: b) = stripAnsiF false b := by
  intro code
  induction code with
  | nil => intro b _; rw [List.nil_append, stripAnsiF, if_pos rfl]
  | cons c code' ih =>
    intro b h
    have hc : ¬ c = 'm' := fun e => h (by simp [e])
    rw [List.cons_append, stripAnsiF, if_neg hc, ih b (fun hm => h (List.mem_cons_of_mem c hm))]

theorem stripAnsiF_escSeq : ∀ code b : L, 'm' ∉ code →
    stripAnsiF false (escSeq code ++ b) = stripAnsiF false b := by
  intro code b h
  have e : escSeq code ++ b = escChar :: '[' :: (code ++ 'm' :: b) := by
    rw [escSeq]
    simp
  rw [e, stripAnsiF, if_pos rfl, stripAnsiF, if_neg (by decide), stripAnsiF_true_skip code b h]

theorem stripAnsiF_greenBold (m b : L) (h : escChar ∉ m) :
    stripAnsiF false (greenBoldWrap m ++ b) = m ++ stripAnsiF false b := by
  rw [greenBoldWrap]
  rw [show escSeq ['3', '2'] ++ escSeq ['1'] ++ m ++ escSeq ['2', '2'] ++ escSeq ['3', '9'] ++ b
      = escSeq ['3', '2'] ++ (escSeq ['1'] ++ (m ++ (escSeq ['2', '2'] ++ (escSeq ['3', '9'] ++ b))))
    from by simp [List.append_assoc]]
  rw [stripAnsiF_escSeq _ _ (by decide), stripAnsiF_escSeq _ _ (by decide),
      stripAnsiF_append_clean m _ h, stripAnsiF_escSeq _ _ (by decide),
      stripAnsiF_escSeq _ _ (by decide)]

theorem stripAnsiF_redBold (m b : L) (h : escChar ∉ m) :
    stripAnsiF false (redBoldWrap m ++ b) = m ++ stripAnsiF false b := by
  rw [redBoldWrap]
  rw [show escSeq ['3', '1'] ++ escSeq ['1'] ++ m ++ escSeq ['2', '2'] ++ escSeq ['3', '9'] ++ b
      = escSeq ['3', '1'] ++ (escSeq ['1'] ++ (m ++ (escSeq ['2', '2'] ++ (escSeq ['3', '9'] ++ b))))
    from by simp [List.append_assoc]]
  rw [stripAnsiF_escSeq _ _ (by decide), stripAnsiF_escSeq _ _ (by decide),
      stripAnsiF_append_clean m _ h, stripAnsiF_escSeq _ _ (by decide),
      stripAnsiF_escSeq _ _ (by decide)]

theorem stripAnsiF_cyanBold (m b : L) (h : escChar ∉ m) :
    stripAnsiF false (cyanBoldWrap m ++ b) = m ++ stripAnsiF false b := by
  rw [cyanBoldWrap]
  rw [show escSeq ['3', '6'] ++ escSeq ['1'] ++ m ++ escSeq ['2', '2'] ++ escSeq ['3', '9'] ++ b
      = escSeq ['3', '6'] ++ (escSeq ['1'] ++ (m ++ (escSeq ['2', '2'] ++ (escSeq ['3', '9'] ++ b))))
    from by simp [List.append_assoc]]
  rw [stripAnsiF_escSeq _ _ (by decide), stripAnsiF_escSeq _ _ (by decide),
      stripAnsiF_append_clean m _ h, stripAnsiF_escSeq _ _ (by decide),
      stripAnsiF_escSeq _ _ (by decide)]

theorem stripAnsiF_styleHeader (m b : L) (h : escChar ∉ m) :
    stripAnsiF false (styleHeader m ++ b) = m ++ stripAnsiF false b := by
  rw [styleHeader]
  by_cases h1 : (containsSub (toLowerL m) "summary".data
      || containsSub (toLowerL m) "overview".data) = true
  · rw [if_pos h1]; exact stripAnsiF_greenBold m b h
  · rw [if_neg h1]
    by_cases h2 : (containsSub (toLowerL m) "issue".data || containsSub (toLowerL m) "bug".data
        || containsSub (toLowerL m) "error".data) = true
    · rw [if_pos h2]; exact stripAnsiF_redBold m b h
    · rw [if_neg h2]; exact stripAnsiF_cyanBold m b h

theorem headerAlt1_eq : ∀ l m post, headerAlt1 l = some (m, post) → l = m ++ post ∧ m ≠ [] := by
  intro l m post h
  cases l with
  | nil => simp [headerAlt1] at h
  | cons c rest =>
    rw [headerAlt1] at h
    by_cases h1 : isUpperAZ c = true
    · rw [if_pos h1] at h
      by_cases h2 : (!(spanP (fun x => isAsciiLetter x || isJsWs x) rest).1.isEmpty &&
          (spanP (fun x => isAsciiLetter x || isJsWs x) rest).2.head? = some ':') = true
      · rw [if_pos h2] at h
        simp only [Option.some.injEq, Prod.mk.injEq] at h
        have h2' : (spanP (fun x => isAsciiLetter x || isJsWs x) rest).2.head? = some ':' := by
          have := h2
          simp only [Bool.and_eq_true] at this
          simpa using this.2
        constructor
        · cases hs2 : (spanP (fun x => isAsciiLetter x || isJsWs x) rest).2 with
          | nil => rw [hs2] at h2'; simp at h2'
          | cons y ys =>
            rw [hs2] at h2'
            simp only [List.head?_cons, Option.some.injEq] at h2'
            rw [← h.1, ← h.2, hs2, List.tail_cons]
            have hra : rest = (spanP (fun x => isAsciiLetter x || isJsWs x) rest).1 ++ y :: ys := by
              rw [← hs2]
              exact (spanP_append _ rest).symm
            conv_lhs => rw [hra]
            rw [h2']
            simp
        · rw [← h.1]; simp
      · rw [if_neg h2] at h; simp at h
    · rw [if_neg h1] at h; simp at h

theorem findCut_eq : ∀ k (t rest m post : L), findCut k t rest = some (m, post) →
    t ++ rest = m ++ post ∧ m ≠ [] := by
  intro k
  induction k with
  | zero => intro t rest m post h; simp [findCut] at h
  | succ j ih =>
    intro t rest m post h
    rw [findCut] at h
    by_cases h1 : j + 1 < 3
    · rw [if_pos h1] at h; simp at h
    · rw [if_neg h1] at h
      by_cases h2 : boundaryOk (t.take (j + 1)).getLast? (t.drop (j + 1) ++ rest).head? = true
      · rw [if_pos h2] at h
        simp only [Option.some.injEq, Prod.mk.injEq] at h
        constructor
        · rw [← h.1, ← h.2]
          rw [← List.append_assoc, List.take_append_drop]
        · rw [← h.1]
          intro he
          rw [he] at h2
          simp [boundaryOk] at h2
      · rw [if_neg h2] at h
        exact ih t rest m post h

theorem headerAlt2_eq : ∀ l m post, headerAlt2 l = some (m, post) → l = m ++ post ∧ m ≠ [] := by
  intro l m post h
  cases l with
  | nil => simp [headerAlt2] at h
  | cons c rest =>
    rw [headerAlt2] at h
    by_cases h1 : isUpperAZ c = true
    · rw [if_pos h1] at h
      by_cases h2 : 2 ≤ (spanP isUpperAZ (c :: rest)).1.length
      · rw [if_pos h2] at h
        have := findCut_eq _ _ _ m post h
        refine ⟨?_, this.2⟩
        rw [← this.1, spanP_append]
      · rw [if_neg h2] at h; simp at h
    · rw [if_neg h1] at h; simp at h

theorem headerStyleF_strip : ∀ n (l : L), l.length = n → ∀ f (bol : Bool), escChar ∉ l →
    stripAnsiF false (headerStyleF f bol l) = l := by
  intro n
  induction n using Nat.strong_induction_on with
  | _ n ihn =>
    intro l hn f bol h
    cases f with
    | zero => exact stripAnsiF_id l h
    | succ g =>
      cases l with
      | nil => rfl
      | cons c rest =>
        have hc : ¬ c = escChar := fun e => h (by simp [e])
        have hrest : escChar ∉ rest := fun hm => h (List.mem_cons_of_mem c hm)
        have hrl : rest.length < n := by simp at hn; omega
        rw [headerStyleF]
        cases hbol : bol with
        | false =>
          rw [if_neg (by simp)]
          rw [stripAnsiF, if_neg hc, ihn rest.length hrl rest rfl g (isLineTerm c) hrest]
        | true =>
          rw [if_pos rfl]
          cases ha1 : headerAlt1 (c :: rest) with
          | some p =>
            dsimp only
            have hd := headerAlt1_eq (c :: rest) p.1 p.2 (by rw [ha1])
            have hm : escChar ∉ p.1 := fun hm => by
              have : escChar ∈ c :: rest := by rw [hd.1]; exact List.mem_append_left _ hm
              exact h this
            have hp2 : escChar ∉ p.2 := fun hm => by
              have : escChar ∈ c :: rest := by rw [hd.1]; exact List.mem_append_right _ hm
              exact h this
            have hlen : p.2.length < n := by
              have := congrArg List.length hd.1
              simp only [List.length_cons, List.length_append] at this
              have hm1 : 1 ≤ p.1.length := by
                cases hp : p.1 with
                | nil => exact absurd hp hd.2
                | cons x xs => simp [hp]
              simp at hn
              omega
            rw [stripAnsiF_styleHeader p.1 _ hm,
                ihn p.2.length hlen p.2 rfl g (endsWithBreak p.1) hp2, ← hd.1]
          | none =>
            dsimp only
            cases ha2 : headerAlt2 (c :: rest) with
            | some p =>
              dsimp only
              have hd := headerAlt2_eq (c :: rest) p.1 p.2 (by rw [ha2])
              have hm : escChar ∉ p.1 := fun hm => by
                have : escChar ∈ c :: rest := by rw [hd.1]; exact List.mem_append_left _ hm
                exact h this
              have hp2 : escChar ∉ p.2 := fun hm => by
                have : escChar ∈ c :: rest := by rw [hd.1]; exact List.mem_append_right _ hm
                exact h this
              have hlen : p.2.length < n := by
                have := congrArg List.length hd.1
                simp only [List.length_cons, List.length_append] at this
                have hm1 : 1 ≤ p.1.length := by
                  cases hp : p.1 with
                  | nil => exact absurd hp hd.2
                  | cons x xs => simp [hp]
                simp at hn
                omega
              rw [stripAnsiF_styleHeader p.1 _ hm,
                  ihn p.2.length hlen p.2 rfl g (endsWithBreak p.1) hp2, ← hd.1]
            | none =>
              dsimp only
              rw [stripAnsiF, if_neg hc, ihn rest.length hrl rest rfl g (isLineTerm c) hrest]

/-! ## Lemmas: line structure of the built instruction -/

theorem splitLines_nl (l : L) : splitLines ('\n' :: l) = [] :: splitLines l := by
  rw [splitLines, if_pos rfl]

theorem splitLines_bulleted : ∀ (rs : List L) (X : L),
    splitLines (bulletedRules rs ++ X)
      = (rs.flatMap fun q => splitLines ('-' :: ' ' :: q)) ++ splitLines X := by
  intro rs
  induction rs with
  | nil => intro X; simp [bulletedRules]
  | cons r rs' ih =>
    intro X
    have e : bulletedRules (r :: rs') ++ X = ('-' :: ' ' :: r) ++ '\n' :: (bulletedRules rs' ++ X) := by
      rw [bulletedRules]
      simp
    rw [e, splitLines_append, ih X, List.flatMap_cons, List.append_assoc]

theorem splitLines_rulesBlock : ∀ (rs : List L) (X : L),
    splitLines (rulesBlock rs ++ X) = rulesLines rs ++ splitLines X := by
  intro rs X
  cases rs with
  | nil => simp [rulesBlock, rulesLines]
  | cons r rs' =>
    have e : rulesBlock (r :: rs') ++ X
        = "Please check for the following:".data ++
          '\n' :: (bulletedRules (r :: rs') ++ '\n' :: X) := by
      rw [rulesBlock]
      simp
    rw [e, splitLines_append, splitLines_bulleted, splitLines_nl, rulesLines]
    have hP : splitLines ("Please check for the following:".data)
        = ["Please check for the following:".data] := by decide
    rw [hP]
    simp

theorem splitLines_diffSection (d : L) : splitLines (diffSection d) = diffLines d := by
  have e : diffSection d
      = '\n' :: ("Here is the code diff to review:\n\n```".data ++
          '\n' :: (d ++ '\n' :: ("```".data ++ '\n' :: ([] : L)))) := by
    rw [diffSection]
    simp
  rw [e, splitLines_nl, splitLines_append, splitLines_append, splitLines_append]
  have h1 : splitLines ("Here is the code diff to review:\n\n```".data)
      = ["Here is the code diff to review:".data, [], "```".data] := by decide
  have h2 : splitLines ("```".data) = ["```".data] := by decide
  rw [h1, h2, diffLines]
  simp [splitLines]

theorem promptLines_eq (cfg : Config) (d : L) :
    splitLines (buildFullInstruction cfg d) = promptLines cfg d := by
  have e : buildFullInstruction cfg d
      = baseInstr cfg ++ '\n' :: ('\n' ::
          (rulesBlock cfg.rules ++
            ('\n' :: ((if cfg.light_review then lightBody else fullBody) ++
              '\n' :: diffSection d)))) := by
    rw [buildFullInstruction]
    by_cases hl : cfg.light_review <;> simp [hl, lightTemplate, fullTemplate]
  rw [e, splitLines_append, splitLines_nl, splitLines_rulesBlock, splitLines_nl,
      splitLines_append, splitLines_diffSection, promptLines]
  simp

/-! ## Lemmas: wrapper versions and sentinel facts -/

theorem removeBold_id (l : L) (h1 : '*' ∉ l) (h2 : '_' ∉ l) : removeBold l = l :=
  removeBoldF_id _ l h1 h2

theorem removeItalic_id (l : L) (h1 : '*' ∉ l) (h2 : '_' ∉ l) : removeItalic l = l :=
  removeItalicF_id _ l h1 h2

theorem removeMdHeaders_id (l : L) (h : hashFreeF true l = true) : removeMdHeaders l = l :=
  removeHeadersF_id _ true l h

theorem processCodeBlocks_id (u : Bool) (l : L) (h : '`' ∉ l) : processCodeBlocks u l = l :=
  pcbF_id u _ l h

theorem replaceInline_id (u : Bool) (l : L) (h : '`' ∉ l) : replaceInline u l = l :=
  inlineF_id u _ l h

theorem bulletReplace_id (l : L) (h : '*' ∉ l) : bulletReplace l = l :=
  bulletF_id _ true l h

theorem mem_removeBold (l : L) (c : Char) (h : c ∈ removeBold l) : c ∈ l :=
  mem_removeBoldF _ l c h

theorem mem_removeItalic (l : L) (c : Char) (h : c ∈ removeItalic l) : c ∈ l :=
  mem_removeItalicF _ l c h

theorem mem_removeMdHeaders (l : L) (c : Char) (h : c ∈ removeMdHeaders l) : c ∈ l :=
  mem_removeHeadersF _ true l c h

theorem isSentinel_nl (x : L) : isSentinel ('\n' :: x) = false := by
  have h1 : errSentinel = 'E' :: "rror reviewing code:".data := by decide
  have h2 : noKeySentinel = '⚠' :: "️ No Gemini API key found".data := by decide
  rw [isSentinel, h1, h2]
  simp only [List.isPrefixOf]
  rw [show (('E' : Char) == '\n') = false from by decide,
      show (('⚠' : Char) == '\n') = false from by decide]
  simp

theorem noKeyFallback_not_sentinel (d : L) : isSentinel (noKeyFallback d) = false := by
  rw [noKeyFallback]
  exact isSentinel_nl _

theorem errorReviewText_not_sentinel (e : L) : isSentinel (errorReviewText e) = false := by
  rw [errorReviewText]
  exact isSentinel_nl _

theorem displayEvents_main (review : L) (cfg : Config) (hne : ¬ review = [])
    (hs : isSentinel review = false) :
    displayEvents review cfg
      = [.divider, .log ('\n' :: renderPipeline (useColorsOf cfg) review ++ ['\n']), .divider] := by
  rw [displayEvents, if_neg hne, if_neg (by rw [hs]; exact Bool.false_ne_true)]

/-! ## The claims -/

/-- C1 (amended): a rawText that begins with one of the two sentinel prefixes
(`Error reviewing code:` or `⚠️ No Gemini API key found`) is passed through
unmodified by the renderer for either color setting; an empty rawText instead
yields the fixed message `No review generated.`; and the exact no-credential
fallback string the review client produces begins with a newline, so it does
not match either sentinel prefix and is not passed through unmodified. -/
theorem c1_sentinel_passthrough :
    (∀ (s : L) (u : Bool), isSentinel s = true → formatReview s u = s)
    ∧ (∀ u : Bool, formatReview [] u = "No review generated.".data)
    ∧ (∀ d : L, isSentinel (noKeyFallback d) = false)
    ∧ ¬ (formatReview (noKeyFallback "x".data) false = noKeyFallback "x".data) := by
  refine ⟨?_, ?_, ?_, ?_⟩
  · intro s u hs
    have hne : ¬ s = [] := by
      intro he
      rw [he] at hs
      revert hs
      decide
    rw [formatReview, if_neg hne, if_pos hs]
  · intro u
    rfl
  · exact noKeyFallback_not_sentinel
  · decide

/-- C1 witness: the sentinel pass-through, the empty-review message and the
fallback's failed sentinel test at concrete inputs. -/
theorem c1_sentinel_passthrough_witness :
    formatReview ("Error reviewing code: boom".data) true = "Error reviewing code: boom".data
    ∧ formatReview [] true = "No review generated.".data
    ∧ isSentinel (noKeyFallback "x".data) = false :=
  ⟨c1_sentinel_passthrough.1 ("Error reviewing code: boom".data) true (by decide),
   c1_sentinel_passthrough.2.1 true,
   c1_sentinel_passthrough.2.2.1 "x".data⟩

/-- C1 counterexample: the exact no-credential fallback message (for the
one-character diff `x`) is not rendered to itself even with colors off — the
italic pass strips the underscores of `GEMINI_API_KEY` — and the empty
rawText is not passed through unmodified either. -/
theorem c1_fallback_not_passed_through :
    ¬ (formatReview (noKeyFallback "x".data) false = noKeyFallback "x".data)
    ∧ ¬ (formatReview [] false = []) := by
  decide

/-- C5: the built instruction appends the caller's rules as a bulleted block
and tells the remote system to avoid asterisks, but the block-delimiter
strings it tells the remote system to avoid are `━━━━ Code Block ━━━━` and
`━━━━ End Code Block ━━━━`, not the `--- Code Block ---` and
`--- End Code Block ---` markers the renderer actually emits — the prompt
never mentions the latter, in either verbosity mode. -/
theorem c5_prompt_names_wrong_delimiters :
    containsSub (buildFullInstruction cfgFive "d".data) "--- Code Block ---".data = false
    ∧ containsSub (buildFullInstruction cfgFive "d".data) "--- End Code Block ---".data = false
    ∧ containsSub (buildFullInstruction cfgFive "d".data) "━━━━ Code Block ━━━━".data = true
    ∧ containsSub (buildFullInstruction cfgFive "d".data) "━━━━ End Code Block ━━━━".data = true
    ∧ "- r1".data ∈ splitLines (buildFullInstruction cfgFive "d".data)
    ∧ "- r2".data ∈ splitLines (buildFullInstruction cfgFive "d".data)
    ∧ containsSub (buildFullInstruction cfgFive "d".data) "DO NOT use any asterisks".data = true
    ∧ containsSub (buildFullInstruction { cfgFive with light_review := true } "d".data)
        "--- Code Block ---".data = false
    ∧ containsSub (buildFullInstruction { cfgFive with light_review := true } "d".data)
        "━━━━ Code Block ━━━━".data = true := by
  decide

/-- C7: with no API credential in the configuration or the environment, the
review operation returns the deterministic statistical fallback without
invoking the remote call (no events at all, in particular no `apiCall`); the
fallback contains the diff's `split('\n')` line count and character count as
substrings; and it is displayed through the same divider-bounded rendering
path as any successful review. -/
theorem c7_no_credential_fallback (d : L) (cfg : Config) (envKey : Option L)
    (api : L → L → L → Except L L)
    (hkey : orS cfg.gemini_api_key envKey = none) :
    reviewCode d cfg envKey api = (noKeyFallback d, [])
    ∧ natToChars (countLines d) <:+: noKeyFallback d
    ∧ natToChars d.length <:+: noKeyFallback d
    ∧ displayEvents (noKeyFallback d) cfg
        = [.divider, .log ('\n' :: renderPipeline (useColorsOf cfg) (noKeyFallback d) ++ ['\n']),
           .divider] := by
  refine ⟨?_, ?_, ?_, ?_⟩
  · rw [reviewCode, hkey]
  · exact ⟨'\n' :: ("⚠️ No Gemini API key found\n\nPlease add your Gemini API key to CR.json or set it as an environment variable (GEMINI_API_KEY).\nYou can get a Gemini API key from https://ai.google.dev/\n\nFor now, here's a basic analysis:\n\nSummary:\nThe code contains approximately ").data,
      " lines with ".data ++ natToChars d.length ++
        (" characters.\n\nRecommendation:\nTo get a detailed code review, please configure your Gemini API key using:\n- Add it to CR.json file\n- Or set the GEMINI_API_KEY environment variable\n").data,
      by simp [noKeyFallback]⟩
  · exact ⟨'\n' :: ("⚠️ No Gemini API key found\n\nPlease add your Gemini API key to CR.json or set it as an environment variable (GEMINI_API_KEY).\nYou can get a Gemini API key from https://ai.google.dev/\n\nFor now, here's a basic analysis:\n\nSummary:\nThe code contains approximately ").data ++
        natToChars (countLines d) ++ " lines with ".data,
      (" characters.\n\nRecommendation:\nTo get a detailed code review, please configure your Gemini API key using:\n- Add it to CR.json file\n- Or set the GEMINI_API_KEY environment variable\n").data,
      by simp [noKeyFallback]⟩
  · exact displayEvents_main _ cfg (by rw [noKeyFallback]; simp) (noKeyFallback_not_sentinel d)

/-- C7 witness: the no-credential fallback at the one-character diff `x` with
an empty configuration. -/
theorem c7_no_credential_fallback_witness :
    reviewCode "x".data {} none (fun _ _ _ => .ok []) = (noKeyFallback "x".data, [])
    ∧ natToChars (countLines "x".data) <:+: noKeyFallback "x".data
    ∧ natToChars ("x".data).length <:+: noKeyFallback "x".data
    ∧ displayEvents (noKeyFallback "x".data) {}
        = [.divider, .log ('\n' :: renderPipeline (useColorsOf {}) (noKeyFallback "x".data) ++ ['\n']),
           .divider] :=
  c7_no_credential_fallback "x".data {} none (fun _ _ _ => .ok []) (by decide)

/-- C9 (amended): with colors off, `render` is idempotent on plain text free
of backticks, asterisks, underscores, and lines beginning with `#` — on such
text the non-empty, non-sentinel path is the identity, so a second render
changes nothing.  (Underscores must be excluded: they are markdown emphasis
the cleanup rewrites, and rewriting them can expose a fresh `# ` line start,
see the counterexample.) -/
theorem c9_render_idempotent (x : L) (hbt : '`' ∉ x) (hast : '*' ∉ x) (hund : '_' ∉ x)
    (hhash : noHashLineStart x = true) :
    formatReview (formatReview x false) false = formatReview x false := by
  by_cases hx : x = []
  · subst hx
    decide
  · by_cases hs : isSentinel x = true
    · have hfx : formatReview x false = x := by rw [formatReview, if_neg hx, if_pos hs]
      rw [hfx]
      exact hfx
    · have hfx : formatReview x false = x := by
        rw [formatReview, if_neg hx, if_neg hs, renderPipeline]
        simp only [Bool.false_eq_true, if_false]
        rw [noHashLineStart] at hhash
        rw [removeBold_id x hast hund, removeItalic_id x hast hund,
            removeMdHeaders_id x hhash, processCodeBlocks_id false x hbt,
            replaceInline_id false x hbt, bulletReplace_id x hast, removeAst_id x hast]
      rw [hfx]
      exact hfx

/-- C9 witness: idempotence on a concrete clean text. -/
theorem c9_render_idempotent_witness :
    formatReview (formatReview "All good.\nNo issues found.".data false) false
      = formatReview "All good.\nNo issues found.".data false :=
  c9_render_idempotent "All good.\nNo issues found.".data (by decide) (by decide)
    (by decide) (by decide)

/-- C9 counterexample: `__# # b` contains no backticks, no asterisks and no
line beginning with `#` (the artifact list of the claim), yet one render
yields `# b` — the italic pass removes the two underscores and exposes a new
`# ` line start after the header pass already ran — and a second render
yields `b`, so render∘render differs from render. -/
theorem c9_not_idempotent_cex :
    ('`' ∉ "__# # b".data)
    ∧ ('*' ∉ "__# # b".data)
    ∧ noHashLineStart "__# # b".data = true
    ∧ formatReview "__# # b".data false = "# b".data
    ∧ formatReview (formatReview "__# # b".data false) false = "b".data
    ∧ ¬ (formatReview (formatReview "__# # b".data false) false
          = formatReview "__# # b".data false) := by
  decide

/-- C8: exactly the two precondition failures halt the run before any file,
with a printed message and no summary: a missing configuration halts after
printing only the opening banner and a warning, a missing repository after
the banner and an error; in every run that passes the preconditions with a
nonempty changed-file set — whatever the per-file diff and remote outcomes —
the loop runs to completion and the `REVIEW SUMMARY` block is printed (the
embedding is total, so no exception can escape the orchestrator). -/
theorem c8_error_containment (env : Env) :
    (env.config = none →
      changesCommand env
        = ⟨[Ev.sectionHeader "CODE REVIEW".data "Reviewing changes in your git repository".data,
            Ev.warning cfgNotFoundMsg], 0, 0, false⟩)
    ∧ (∀ cfg : Config, env.config = some cfg → env.isRepo = false →
      changesCommand env
        = ⟨[Ev.sectionHeader "CODE REVIEW".data "Reviewing changes in your git repository".data,
            Ev.error notRepoMsg], 0, 0, false⟩)
    ∧ (∀ cfg : Config, env.config = some cfg → env.isRepo = true →
        ¬ (env.modified ++ env.created ++ env.renamedTo = []) →
        (changesCommand env).summaryPrinted = true
        ∧ Ev.sectionHeader "REVIEW SUMMARY".data "Results of code review".data
            ∈ (changesCommand env).events) := by
  refine ⟨?_, ?_, ?_⟩
  · intro h
    simp [changesCommand, h]
  · intro cfg h hr
    simp [changesCommand, h, hr]
  · intro cfg h hr hne
    have hne' : ¬ (env.modified = [] ∧ env.created = [] ∧ env.renamedTo = []) := by
      intro hcc
      exact hne (by simp [hcc.1, hcc.2.1, hcc.2.2])
    constructor
    · simp [changesCommand, h, hr, hne']
    · simp [changesCommand, h, hr, hne', summaryEvents, List.mem_append]

/-- C8 witness: the two precondition halts and a completed run at concrete
environments. -/
theorem c8_error_containment_witness :
    changesCommand envNoCfg
      = ⟨[Ev.sectionHeader "CODE REVIEW".data "Reviewing changes in your git repository".data,
          Ev.warning cfgNotFoundMsg], 0, 0, false⟩
    ∧ changesCommand envNoRepo
      = ⟨[Ev.sectionHeader "CODE REVIEW".data "Reviewing changes in your git repository".data,
          Ev.error notRepoMsg], 0, 0, false⟩
    ∧ (changesCommand envThree).summaryPrinted = true :=
  ⟨(c8_error_containment envNoCfg).1 rfl,
   (c8_error_containment envNoRepo).2.1 {} rfl rfl,
   ((c8_error_containment envThree).2.2 cfgThree rfl rfl (by decide)).1⟩

/-- C10: a configured but unsupported model name does not make the review
fail: `config.model_name || default` is the configured name, the model the
remote call actually receives is `gemini-2.0-flash`, a warning is printed
first, the remote answer is returned as the review, and the orchestrator's
final summary still reports the configured model name. -/
theorem c10_unsupported_model (cfg : Config) (m : L)
    (hm : cfg.model_name = some m) (hne : ¬ m = [])
    (hns : supportedModels.contains m = false) :
    pickedModel cfg = m
    ∧ usedModel cfg = defaultModel
    ∧ (∀ (d : L) (envKey : Option L) (api : L → L → L → Except L L) (k : L),
        orS cfg.gemini_api_key envKey = some k →
        Ev.warning (modelWarnMsg m) ∈ (reviewCode d cfg envKey api).2
        ∧ Ev.apiCall k defaultModel ∈ (reviewCode d cfg envKey api).2
        ∧ (∀ t, api k (buildFullInstruction cfg d) defaultModel = Except.ok t →
            (reviewCode d cfg envKey api).1 = t))
    ∧ (∀ env : Env, env.config = some cfg → env.isRepo = true →
        ¬ (env.modified ++ env.created ++ env.renamedTo = []) →
        Ev.listItem "Model used".data m ∈ (changesCommand env).events) := by
  have hpick : pickedModel cfg = m := by
    rw [pickedModel, hm, pickS, if_neg hne]
  have hused : usedModel cfg = defaultModel := by
    rw [usedModel, hpick, if_neg (by rw [hns]; exact Bool.false_ne_true)]
  have hdef : supportedModels.contains defaultModel = true := by decide
  refine ⟨hpick, hused, ?_, ?_⟩
  · intro d envKey api k hkey
    have hr2 : reviewCode d cfg envKey api
        = (match api k (buildFullInstruction cfg d) defaultModel with
           | .ok t => (t, [Ev.warning (modelWarnMsg m), Ev.apiCall k defaultModel])
           | .error e => (errorReviewText e,
               [Ev.warning (modelWarnMsg m), Ev.apiCall k defaultModel, Ev.error apiCallErrMsg])) := by
      rw [reviewCode, hkey]
      simp only [hpick, hused, hns, hdef, Bool.false_eq_true, if_false, if_true]
      cases api k (buildFullInstruction cfg d) defaultModel <;> simp
    refine ⟨?_, ?_, ?_⟩
    · rw [hr2]
      cases api k (buildFullInstruction cfg d) defaultModel <;> simp
    · rw [hr2]
      cases api k (buildFullInstruction cfg d) defaultModel <;> simp
    · intro t ht
      rw [hr2, ht]
  · intro env h hr hne
    have hne' : ¬ (env.modified = [] ∧ env.created = [] ∧ env.renamedTo = []) := by
      intro hcc
      exact hne (by simp [hcc.1, hcc.2.1, hcc.2.2])
    simp [changesCommand, h, hr, hne', summaryEvents, List.mem_append, hpick]

/-- C10 witness: a configured `gpt-4` model at a concrete environment. -/
theorem c10_unsupported_model_witness :
    pickedModel { gemini_api_key := some "k".data, model_name := some "gpt-4".data }
      = "gpt-4".data
    ∧ usedModel { gemini_api_key := some "k".data, model_name := some "gpt-4".data }
      = defaultModel
    ∧ Ev.warning (modelWarnMsg "gpt-4".data)
        ∈ (reviewCode "+x".data { gemini_api_key := some "k".data, model_name := some "gpt-4".data }
            none (fun _ _ _ => .ok "fine".data)).2 := by
  have h := c10_unsupported_model
    { gemini_api_key := some "k".data, model_name := some "gpt-4".data }
    "gpt-4".data rfl (by decide) (by decide)
  exact ⟨h.1, h.2.1,
    (h.2.2.1 "+x".data none (fun _ _ _ => .ok "fine".data) "k".data (by decide)).1⟩

/-! ## C2: a remote-call failure does not interrupt the run — and the file is
still counted as reviewed -/

theorem processFile_review (cfg : Config) (env : Env) (f d : L)
    (hrf : isReviewable f = true) (hd : env.diffOf f = .ok d) (hdn : ¬ d = []) :
    processFile cfg env f
      = ([Ev.subsectionHeader (reviewingMsg f), Ev.listItem "File".data f,
          Ev.listItem "Changes".data (changesLinesMsg d), Ev.blank] ++
          (reviewCode d cfg env.envKey env.api).2 ++
          displayEvents (reviewCode d cfg env.envKey env.api).1 cfg, 1, 0) := by
  simp [processFile, hrf, hd, hdn]

theorem reviewCode_api_error (d : L) (cfg : Config) (envKey : Option L)
    (api : L → L → L → Except L L) (k e : L)
    (hkey : orS cfg.gemini_api_key envKey = some k)
    (hapi : api k (buildFullInstruction cfg d) (usedModel cfg) = .error e) :
    reviewCode d cfg envKey api
      = (errorReviewText e,
         (if supportedModels.contains (pickedModel cfg) then []
          else [Ev.warning (modelWarnMsg (pickedModel cfg))]) ++
         (if supportedModels.contains (usedModel cfg) then []
          else [Ev.warning (modelWarn2Msg (usedModel cfg))]) ++
         [Ev.apiCall k (usedModel cfg), Ev.error apiCallErrMsg]) := by
  rw [reviewCode, hkey]
  simp only [hapi]

theorem reviewCode_api_ok (d : L) (cfg : Config) (envKey : Option L)
    (api : L → L → L → Except L L) (k t : L)
    (hkey : orS cfg.gemini_api_key envKey = some k)
    (hapi : api k (buildFullInstruction cfg d) (usedModel cfg) = .ok t) :
    reviewCode d cfg envKey api
      = (t,
         (if supportedModels.contains (pickedModel cfg) then []
          else [Ev.warning (modelWarnMsg (pickedModel cfg))]) ++
         (if supportedModels.contains (usedModel cfg) then []
          else [Ev.warning (modelWarn2Msg (usedModel cfg))]) ++
         [Ev.apiCall k (usedModel cfg)]) := by
  rw [reviewCode, hkey]
  simp only [hapi]

/-- C2 (amended): when the remote call fails for exactly one of three
reviewable changed files, the failure is absorbed inside the review client
wrapper — the error text becomes that file's displayed review body, the
per-file error is reported, the run continues, the summary is printed, and
the file is still counted: the summary reports Reviewed 3 of 3, not 2. -/
theorem c2_failure_still_counted (env : Env) (cfg : Config)
    (fa fb fc da db dc ta tc eb k : L)
    (hcfg : env.config = some cfg) (hrepo : env.isRepo = true)
    (hfiles : env.modified ++ env.created ++ env.renamedTo = [fa, fb, fc])
    (hra : isReviewable fa = true) (hrb : isReviewable fb = true)
    (hrc : isReviewable fc = true)
    (hda : env.diffOf fa = .ok da) (hdb : env.diffOf fb = .ok db)
    (hdc : env.diffOf fc = .ok dc)
    (hna : ¬ da = []) (hnb : ¬ db = []) (hnc : ¬ dc = [])
    (hkey : orS cfg.gemini_api_key env.envKey = some k)
    (hapa : env.api k (buildFullInstruction cfg da) (usedModel cfg) = .ok ta)
    (hapb : env.api k (buildFullInstruction cfg db) (usedModel cfg) = .error eb)
    (hapc : env.api k (buildFullInstruction cfg dc) (usedModel cfg) = .ok tc) :
    (changesCommand env).reviewed = 3
    ∧ (changesCommand env).skipped = 0
    ∧ (changesCommand env).summaryPrinted = true
    ∧ Ev.error apiCallErrMsg ∈ (changesCommand env).events
    ∧ Ev.log ('\n' :: renderPipeline (useColorsOf cfg) (errorReviewText eb) ++ ['\n'])
        ∈ (changesCommand env).events := by
  have ea := processFile_review cfg env fa da hra hda hna
  have eb2 := processFile_review cfg env fb db hrb hdb hnb
  have ec := processFile_review cfg env fc dc hrc hdc hnc
  have ra := reviewCode_api_ok da cfg env.envKey env.api k ta hkey hapa
  have rb := reviewCode_api_error db cfg env.envKey env.api k eb hkey hapb
  have rc := reviewCode_api_ok dc cfg env.envKey env.api k tc hkey hapc
  have hdm := displayEvents_main (errorReviewText eb) cfg
    (by rw [errorReviewText]; simp) (errorReviewText_not_sentinel eb)
  refine ⟨?_, ?_, ?_, ?_, ?_⟩ <;>
    simp [changesCommand, hcfg, hrepo, hfiles, List.foldl, ea, eb2, ec, ra, rb, rc, hdm,
      summaryEvents, List.mem_append]

/-- C2 witness: the amended behavior at the concrete three-file environment
whose remote call is rate limited exactly for `b.js`. -/
theorem c2_failure_still_counted_witness :
    (changesCommand envThree).reviewed = 3
    ∧ (changesCommand envThree).skipped = 0
    ∧ (changesCommand envThree).summaryPrinted = true
    ∧ Ev.error apiCallErrMsg ∈ (changesCommand envThree).events
    ∧ Ev.log ('\n' :: renderPipeline (useColorsOf cfgThree)
          (errorReviewText "rate limited".data) ++ ['\n'])
        ∈ (changesCommand envThree).events :=
  c2_failure_still_counted envThree cfgThree
    "a.js".data "b.js".data "c.js".data "+aaa".data "+bbb".data "+ccc".data
    "Looks good.".data "Looks good.".data "rate limited".data "k".data
    rfl rfl rfl (by decide) (by decide) (by decide)
    rfl rfl rfl
    (by decide) (by decide) (by decide)
    rfl rfl rfl rfl

/-- C2 counterexample: in the concrete three-file run where the remote call
returns `Failed("rate limited")` for `b.js` only, the summary does not
report Reviewed 2 — all three files are counted as reviewed, because
`reviewCode` converts the failure into review text and the orchestrator
increments `reviewedCount` for it like any other review. -/
theorem c2_reviewed_is_three_cex :
    envThree.api "k".data (buildFullInstruction cfgThree "+bbb".data) (usedModel cfgThree)
      = .error "rate limited".data
    ∧ envThree.api "k".data (buildFullInstruction cfgThree "+aaa".data) (usedModel cfgThree)
      = .ok "Looks good.".data
    ∧ envThree.api "k".data (buildFullInstruction cfgThree "+ccc".data) (usedModel cfgThree)
      = .ok "Looks good.".data
    ∧ (changesCommand envThree).summaryPrinted = true
    ∧ ¬ ((changesCommand envThree).reviewed = 2)
    ∧ (changesCommand envThree).reviewed = 3 := by
  refine ⟨rfl, rfl, rfl, rfl, by decide, rfl⟩

/-- C6 (amended): for every non-sentinel rawText containing no backticks and
no raw escape character, the textual skeleton is colorEnabled-invariant:
stripping the ANSI styling from the colored rendering yields exactly the
plain rendering — with colors on, the only difference is the header
recoloring, which wraps matched headers in escape sequences without touching
their characters.  (With backticks present this fails: the styling the
inline-code step inserts can block the later bullet-normalization regex, see
the counterexample.) -/
theorem c6_skeleton_color_invariant (x : L) (hbt : '`' ∉ x) (hesc : escChar ∉ x) :
    stripAnsi (formatReview x true) = formatReview x false := by
  by_cases hx : x = []
  · subst hx
    decide
  · by_cases hs : isSentinel x = true
    · rw [formatReview, if_neg hx, if_pos hs, formatReview, if_neg hx, if_pos hs]
      exact stripAnsiF_id x hesc
    · rw [formatReview, if_neg hx, if_neg hs, formatReview, if_neg hx, if_neg hs,
          renderPipeline, renderPipeline]
      simp only [Bool.false_eq_true, if_false, if_true]
      have hb3 : '`' ∉ removeMdHeaders (removeItalic (removeBold x)) := fun hm =>
        hbt (mem_removeBold _ _ (mem_removeItalic _ _ (mem_removeMdHeaders _ _ hm)))
      rw [processCodeBlocks_id true _ hb3, processCodeBlocks_id false _ hb3,
          replaceInline_id true _ hb3, replaceInline_id false _ hb3]
      have he3 : escChar ∉ removeMdHeaders (removeItalic (removeBold x)) := fun hm =>
        hesc (mem_removeBold _ _ (mem_removeItalic _ _ (mem_removeMdHeaders _ _ hm)))
      have he4 : escChar ∉ bulletReplace (removeMdHeaders (removeItalic (removeBold x))) := by
        intro hm
        rcases mem_bulletF _ _ _ _ hm with h | h
        · exact he3 h
        · revert h
          decide
      have he5 : escChar ∉ removeAst (bulletReplace (removeMdHeaders (removeItalic (removeBold x)))) := by
        intro hm
        exact he4 (List.mem_of_mem_filter hm)
      rw [stripAnsi, applyHeaderStyle]
      exact headerStyleF_strip _ _ rfl _ true he5

/-- C6 witness: invariance at a concrete backtick-free review text. -/
theorem c6_skeleton_color_invariant_witness :
    stripAnsi (formatReview "SUMMARY:\nAll fine.\n* ok".data true)
      = formatReview "SUMMARY:\nAll fine.\n* ok".data false :=
  c6_skeleton_color_invariant "SUMMARY:\nAll fine.\n* ok".data (by decide) (by decide)

/-- C6 counterexample: for `` ` ` *x `` the two runs differ beyond styling.
With colors off the bullet pass rewrites the line to `-x`; with colors on the
inline-code styling inserted before the `*` blocks the `^\s*\*` match, so the
asterisk survives to the asterisk-removal pass and the de-styled skeleton is
`  x` — the marker characters differ, not just the styling. -/
theorem c6_skeleton_differs_cex :
    formatReview "` ` *x".data false = "-x".data
    ∧ stripAnsi (formatReview "` ` *x".data true) = "  x".data
    ∧ ¬ (stripAnsi (formatReview "` ` *x".data true) = formatReview "` ` *x".data false) := by
  decide

/-! ## C3: fenced code blocks -/

theorem mem_emitLines_false : ∀ (ls : List L) (c : Char), c ∈ emitLines false ls →
    c = '\n' ∨ ∃ ln ∈ ls, c ∈ ln := by
  intro ls
  induction ls with
  | nil => intro c h; simp [emitLines] at h
  | cons ln rest ih =>
    intro c h
    rw [emitLines] at h
    simp only [Bool.false_eq_true, if_false] at h
    rcases List.mem_append.mp h with h1 | h1
    · exact Or.inr ⟨ln, List.mem_cons_self ln rest, h1⟩
    · rcases List.mem_cons.mp h1 with h2 | h2
      · exact Or.inl h2
      · rcases ih c h2 with h3 | ⟨ln2, hln2, hc2⟩
        · exact Or.inl h3
        · exact Or.inr ⟨ln2, List.mem_cons_of_mem ln hln2, hc2⟩

theorem not_mem_blockStart (lang : L) (c : Char)
    (hlang : c ∉ lang) (h1 : c ∉ "--- Code Block".data) (h2 : c ∉ " (".data)
    (h3 : ¬ c = ')') (h4 : c ∉ " ---".data) : c ∉ blockStart lang := by
  intro hb
  rw [blockStart] at hb
  by_cases hl : lang = []
  · rw [if_pos hl] at hb
    rcases List.mem_append.mp hb with h | h
    · rw [List.append_nil] at h
      exact h1 h
    · exact h4 h
  · rw [if_neg hl] at hb
    rcases List.mem_append.mp hb with h | h
    · rcases List.mem_append.mp h with h' | h'
      · exact h1 h'
      · rcases List.mem_append.mp h' with h'' | h''
        · rcases List.mem_append.mp h'' with h3' | h3'
          · exact h2 h3'
          · exact hlang h3'
        · simp at h''
          exact h3 h''
    · exact h4 h

theorem not_mem_renderBlock_false (lang content : L) (c : Char)
    (hnl : ¬ c = '\n') (hlang : c ∉ lang) (hcon : c ∉ content)
    (h1 : c ∉ "--- Code Block".data) (h2 : c ∉ " (".data) (h3 : ¬ c = ')')
    (h4 : c ∉ " ---".data) (h5 : c ∉ blockEnd) :
    c ∉ renderBlock false lang content := by
  intro hm
  rw [renderBlock] at hm
  simp only [Bool.false_eq_true, if_false] at hm
  have hbs := not_mem_blockStart lang c hlang h1 h2 h3 h4
  rcases List.mem_append.mp hm with h | h
  · rcases List.mem_append.mp h with h' | h'
    · rcases List.mem_append.mp h' with h'' | h''
      · rcases List.mem_cons.mp h'' with h3' | h3'
        · exact hnl h3'
        · exact hbs h3'
      · rcases List.mem_cons.mp h'' with h3' | h3'
        · exact hnl h3'
        · rcases mem_emitLines_false _ c h3' with h4' | ⟨ln, hln, hc⟩
          · exact hnl h4'
          · exact hcon (mem_splitLines content ln c hln hc)
    · exact h5 h'
  · simp at h
    exact hnl h

theorem mem_fence_split (pre lang content post : L) (c : Char)
    (hm : c ∈ pre ++ '`' :: '`' :: '`' :: (lang ++ '\n' :: (content ++ '`' :: '`' :: '`' :: post))) :
    c ∈ pre ∨ c = '`' ∨ c ∈ lang ∨ c = '\n' ∨ c ∈ content ∨ c ∈ post := by
  rcases List.mem_append.mp hm with h | h
  · exact Or.inl h
  · rcases List.mem_cons.mp h with h | h
    · exact Or.inr (Or.inl h)
    rcases List.mem_cons.mp h with h | h
    · exact Or.inr (Or.inl h)
    rcases List.mem_cons.mp h with h | h
    · exact Or.inr (Or.inl h)
    rcases List.mem_append.mp h with h | h
    · exact Or.inr (Or.inr (Or.inl h))
    rcases List.mem_cons.mp h with h | h
    · exact Or.inr (Or.inr (Or.inr (Or.inl h)))
    rcases List.mem_append.mp h with h | h
    · exact Or.inr (Or.inr (Or.inr (Or.inr (Or.inl h))))
    rcases List.mem_cons.mp h with h | h
    · exact Or.inr (Or.inl h)
    rcases List.mem_cons.mp h with h | h
    · exact Or.inr (Or.inl h)
    rcases List.mem_cons.mp h with h | h
    · exact Or.inr (Or.inl h)
    exact Or.inr (Or.inr (Or.inr (Or.inr (Or.inr h))))

/-- C3 (amended): for a non-sentinel rawText made of a clean prefix, a fenced
code block with an alphanumeric language tag, and a clean suffix — clean
meaning free of backticks, asterisks, underscores and `#` — the colors-off
rendering replaces the block by the start marker (labelled with the language
if present), the `split('\n')` segments of the fenced content reproduced
line-for-line in order, and the end marker; the number of emitted code lines
is exactly the number of those segments.  The cleanliness restriction on the
content is necessary: the global cleanup passes also touch code lines, see
the counterexample, where `a*b` inside a fence is emitted as `ab`. -/
theorem c3_code_block_roundtrip (pre lang content post : L)
    (hpre : ∀ c ∈ pre, ¬ (c = '`' ∨ c = '*' ∨ c = '_' ∨ c = '#'))
    (hcon : ∀ c ∈ content, ¬ (c = '`' ∨ c = '*' ∨ c = '_' ∨ c = '#'))
    (hpost : ∀ c ∈ post, ¬ (c = '`' ∨ c = '*' ∨ c = '_' ∨ c = '#'))
    (hlang : ∀ c ∈ lang, isWordChar c = true ∧ ¬ c = '_')
    (hsent : isSentinel (pre ++ '`' :: '`' :: '`' ::
        (lang ++ '\n' :: (content ++ '`' :: '`' :: '`' :: post))) = false) :
    formatReview (pre ++ '`' :: '`' :: '`' ::
        (lang ++ '\n' :: (content ++ '`' :: '`' :: '`' :: post))) false
      = pre ++ ('\n' :: blockStart lang ++
          '\n' :: emitLines false (splitLines content) ++ blockEnd ++ ['\n']) ++ post
    ∧ emitLines false (splitLines content)
        = (splitLines content).flatMap (fun ln => ln ++ ['\n'])
    ∧ (splitLines content).length = countLines content := by
  have hlangW : ∀ c ∈ lang, isWordChar c = true := fun c hc => (hlang c hc).1
  have hlangNe : ∀ (ch : Char), isWordChar ch = false → ch ∉ lang := by
    intro ch hch hmem
    have hw := hlangW ch hmem
    rw [hch] at hw
    exact absurd hw (by decide)
  have hconBt : '`' ∉ content := fun hm => hcon '`' hm (Or.inl rfl)
  have hpreBt : '`' ∉ pre := fun hm => hpre '`' hm (Or.inl rfl)
  have hpostBt : '`' ∉ post := fun hm => hpost '`' hm (Or.inl rfl)
  have hstar : '*' ∉ pre ++ '`' :: '`' :: '`' ::
      (lang ++ '\n' :: (content ++ '`' :: '`' :: '`' :: post)) := by
    intro hm
    rcases mem_fence_split pre lang content post '*' hm with h | h | h | h | h | h
    · exact hpre '*' h (Or.inr (Or.inl rfl))
    · revert h; decide
    · exact hlangNe '*' (by decide) h
    · revert h; decide
    · exact hcon '*' h (Or.inr (Or.inl rfl))
    · exact hpost '*' h (Or.inr (Or.inl rfl))
  have hund : '_' ∉ pre ++ '`' :: '`' :: '`' ::
      (lang ++ '\n' :: (content ++ '`' :: '`' :: '`' :: post)) := by
    intro hm
    rcases mem_fence_split pre lang content post '_' hm with h | h | h | h | h | h
    · exact hpre '_' h (Or.inr (Or.inr (Or.inl rfl)))
    · revert h; decide
    · exact (hlang '_' h).2 rfl
    · revert h; decide
    · exact hcon '_' h (Or.inr (Or.inr (Or.inl rfl)))
    · exact hpost '_' h (Or.inr (Or.inr (Or.inl rfl)))
  have hhash : '#' ∉ pre ++ '`' :: '`' :: '`' ::
      (lang ++ '\n' :: (content ++ '`' :: '`' :: '`' :: post)) := by
    intro hm
    rcases mem_fence_split pre lang content post '#' hm with h | h | h | h | h | h
    · exact hpre '#' h (Or.inr (Or.inr (Or.inr rfl)))
    · revert h; decide
    · exact hlangNe '#' (by decide) h
    · revert h; decide
    · exact hcon '#' h (Or.inr (Or.inr (Or.inr rfl)))
    · exact hpost '#' h (Or.inr (Or.inr (Or.inr rfl)))
  have hne : ¬ (pre ++ '`' :: '`' :: '`' ::
      (lang ++ '\n' :: (content ++ '`' :: '`' :: '`' :: post)) = []) := by
    simp
  refine ⟨?_, ?_, rfl⟩
  · rw [formatReview, if_neg hne, if_neg (by rw [hsent]; exact Bool.false_ne_true),
        renderPipeline]
    simp only [Bool.false_eq_true, if_false]
    rw [removeBold_id _ hstar hund, removeItalic_id _ hstar hund,
        removeMdHeaders_id _ (hashFreeF_of_not_mem _ true hhash)]
    rw [pcb_append false pre _ hpreBt, pcb_fence false lang content post hlangW hconBt,
        processCodeBlocks_id false post hpostBt]
    have hrbBt : '`' ∉ renderBlock false lang content :=
      not_mem_renderBlock_false lang content '`' (by decide) (hlangNe '`' (by decide))
        hconBt (by decide) (by decide) (by decide) (by decide) (by decide)
    have hrbSt : '*' ∉ renderBlock false lang content :=
      not_mem_renderBlock_false lang content '*' (by decide) (hlangNe '*' (by decide))
        (fun hm => hcon '*' hm (Or.inr (Or.inl rfl)))
        (by decide) (by decide) (by decide) (by decide) (by decide)
    have hp1Bt : '`' ∉ pre ++ (renderBlock false lang content ++ post) := by
      intro hm
      rcases List.mem_append.mp hm with h | h
      · exact hpreBt h
      rcases List.mem_append.mp h with h | h
      · exact hrbBt h
      · exact hpostBt h
    have hp1St : '*' ∉ pre ++ (renderBlock false lang content ++ post) := by
      intro hm
      rcases List.mem_append.mp hm with h | h
      · exact hpre '*' h (Or.inr (Or.inl rfl))
      rcases List.mem_append.mp h with h | h
      · exact hrbSt h
      · exact hpost '*' h (Or.inr (Or.inl rfl))
    rw [replaceInline_id false _ hp1Bt, bulletReplace_id _ hp1St, removeAst_id _ hp1St]
    rw [renderBlock]
    simp [List.append_assoc]
  · induction splitLines content with
    | nil => rfl
    | cons ln rest ih =>
      rw [emitLines, List.flatMap_cons, ih]
      simp

/-- C3 witness: the fenced block round-trip at a concrete review text. -/
theorem c3_code_block_roundtrip_witness :
    formatReview ("Review:\n".data ++ '`' :: '`' :: '`' ::
        ("js".data ++ '\n' :: ("console.log(1)\nok\n".data ++ '`' :: '`' :: '`' :: "\ndone".data))) false
      = "Review:\n".data ++ ('\n' :: blockStart "js".data ++
          '\n' :: emitLines false (splitLines "console.log(1)\nok\n".data) ++ blockEnd ++ ['\n']) ++
          "\ndone".data
    ∧ emitLines false (splitLines "console.log(1)\nok\n".data)
        = (splitLines "console.log(1)\nok\n".data).flatMap (fun ln => ln ++ ['\n'])
    ∧ (splitLines "console.log(1)\nok\n".data).length = countLines "console.log(1)\nok\n".data :=
  c3_code_block_roundtrip "Review:\n".data "js".data "console.log(1)\nok\n".data "\ndone".data
    (by decide) (by decide) (by decide) (by decide) (by decide)

/-- C3 counterexample: the rawText ```` ```\na*b\n``` ```` is non-sentinel and
contains a fenced block whose single content line is `a*b`, but the rendered
output's code line is `ab` — the asterisk-removal pass runs after block
extraction and mutates code lines — so the block content is not reproduced
line-for-line. -/
theorem c3_content_line_mutated_cex :
    formatReview "```\na*b\n```".data false
      = "\n--- Code Block ---\nab\n\n--- End Code Block ---\n".data
    ∧ containsSub (formatReview "```\na*b\n```".data false) "a*b".data = false := by
  decide

/-! ## C4: prompt section headers -/

theorem filter_none7 : ∀ (l : List L), (∀ ln ∈ l, isHeader7 ln = false) →
    l.filter isHeader7 = []
  | [], _ => rfl
  | a :: t, h => by
    rw [List.filter_cons, h a (List.mem_cons_self a t)]
    simp only [Bool.false_eq_true, if_false]
    exact filter_none7 t (fun ln hln => h ln (List.mem_cons_of_mem a hln))

theorem isHeader7_false (lines : List L) (h : ∀ tok ∈ headers7, tok ∉ lines) :
    ∀ ln ∈ lines, isHeader7 ln = false := by
  intro ln hln
  by_contra hc
  rw [Bool.not_eq_false, isHeader7, List.any_eq_true] at hc
  obtain ⟨tok, htok, hbeq⟩ := hc
  rw [beq_iff_eq] at hbeq
  exact h tok htok (hbeq ▸ hln)

/-- C4 (amended): provided none of the seven header tokens already occurs as a
full line of the base instruction, of a bulleted rule, or of the diff, the
built prompt's header lines are exactly `ISSUES:` then `BEST PRACTICES:` in
Light mode, and exactly the seven headers `SUMMARY:`, `ISSUES:`,
`SUGGESTIONS:`, `BEST PRACTICES:`, `SECURITY:`, `PERFORMANCE:`, `CONCLUSION:`
in that order, each once, in Full mode.  The provisos are necessary: the
instruction, rules and diff are concatenated verbatim into the prompt, so a
config whose instruction is itself `SUMMARY:` makes a Light-mode prompt emit
`SUMMARY:`, see the counterexample. -/
theorem c4_prompt_headers (cfg : Config) (d : L)
    (hbase : ∀ tok ∈ headers7, tok ∉ splitLines (baseInstr cfg))
    (hrules : ∀ r ∈ cfg.rules, ∀ tok ∈ headers7, tok ∉ splitLines ('-' :: ' ' :: r))
    (hdiff : ∀ tok ∈ headers7, tok ∉ splitLines d) :
    (cfg.light_review = true →
      (splitLines (buildFullInstruction cfg d)).filter isHeader7
        = ["ISSUES:".data, "BEST PRACTICES:".data])
    ∧ (cfg.light_review = false →
      (splitLines (buildFullInstruction cfg d)).filter isHeader7 = headers7) := by
  have hbl : (splitLines (baseInstr cfg)).filter isHeader7 = [] :=
    filter_none7 _ (isHeader7_false _ hbase)
  have hrl : (rulesLines cfg.rules).filter isHeader7 = [] := by
    cases hr : cfg.rules with
    | nil => rfl
    | cons r rs =>
      rw [rulesLines]
      apply filter_none7
      intro ln hln
      rcases List.mem_cons.mp hln with h | h
      · subst h; decide
      rcases List.mem_append.mp h with h | h
      · rw [List.mem_flatMap] at h
        obtain ⟨q, hq, hlnq⟩ := h
        exact isHeader7_false _ (hrules q (hr ▸ hq)) ln hlnq
      · simp at h
        subst h; decide
  have hdfl : (diffLines d).filter isHeader7 = [] := by
    apply filter_none7
    intro ln hln
    rw [diffLines] at hln
    rcases List.mem_cons.mp hln with h | h
    · subst h; decide
    rcases List.mem_cons.mp h with h | h
    · subst h; decide
    rcases List.mem_cons.mp h with h | h
    · subst h; decide
    rcases List.mem_cons.mp h with h | h
    · subst h; decide
    rcases List.mem_append.mp h with h | h
    · exact isHeader7_false _ hdiff ln h
    · rcases List.mem_cons.mp h with h | h
      · subst h; decide
      · simp at h
        subst h; decide
  have hm : ([[]] : List L).filter isHeader7 = [] := by decide
  constructor
  · intro hl
    rw [promptLines_eq, promptLines, hl, if_pos rfl]
    rw [List.filter_append, List.filter_append, List.filter_append, hbl, hrl, hm,
        List.filter_cons_of_neg (by decide), List.filter_append, hdfl]
    have hlight : (splitLines lightBody).filter isHeader7
        = ["ISSUES:".data, "BEST PRACTICES:".data] := by decide
    rw [hlight]
    simp
  · intro hl
    rw [promptLines_eq, promptLines, hl]
    rw [if_neg (by simp)]
    rw [List.filter_append, List.filter_append, List.filter_append, hbl, hrl, hm,
        List.filter_cons_of_neg (by decide), List.filter_append, hdfl]
    have hfull : (splitLines fullBody).filter isHeader7 = headers7 := by decide
    rw [hfull]
    simp

/-- C4 witness: the header filter at a concrete full-mode configuration with
two rules and a one-line diff. -/
theorem c4_prompt_headers_witness :
    (cfgFive.light_review = true →
      (splitLines (buildFullInstruction cfgFive "+x".data)).filter isHeader7
        = ["ISSUES:".data, "BEST PRACTICES:".data])
    ∧ (cfgFive.light_review = false →
      (splitLines (buildFullInstruction cfgFive "+x".data)).filter isHeader7 = headers7) :=
  c4_prompt_headers cfgFive "+x".data (by decide) (by decide) (by decide)

/-- C4 counterexample: a Light-mode configuration whose base instruction is
the line `SUMMARY:` produces a prompt that does emit `SUMMARY:`, so the
unconditional claim fails. -/
theorem c4_light_mode_emits_summary_cex :
    cfgLightSummary.light_review = true
    ∧ "SUMMARY:".data ∈ splitLines (buildFullInstruction cfgLightSummary "d".data) := by
  decide

end CRAI
